import Mathlib

/-!
Verification of the gologs structured event-logging core.

Byte buffers are `List Nat` (each element a byte value < 256 where the code
produces bytes); Go strings are `List Char` (Go ranges over a string by
Unicode code point, which `Char` models exactly).  Go's `uint8` subtraction
wraps modulo 256 and is modelled explicitly where the source relies on it.
-/

namespace Gologs

/-- Go string: sequence of Unicode scalar values. -/
abbrev GoStr := List Char

/-- Alias so method signatures never mention `Bool` unqualified. -/
abbrev GoBool := Bool

/-- Alias so method signatures never mention `Int` unqualified. -/
abbrev GoInt := Int

/-- Go `uint8` subtraction `a - b`, wrapping modulo 256 (both inputs < 256). -/
def u8sub (a b : Nat) : Nat := (a + 256 - b % 256) % 256

/-- Upper-case hexadecimal digit byte for a value `d < 16`. -/
def hexDigit (d : Nat) : Nat := if d < 10 then 48 + d else 55 + d

/-- The four upper-case hex digit bytes of `v < 0x10000` (most significant first). -/
def hex4 (v : Nat) : List Nat :=
  [hexDigit (v / 4096 % 16), hexDigit (v / 256 % 16), hexDigit (v / 16 % 16), hexDigit (v % 16)]

/-- A `\uXXXX` escape sequence for a 16-bit value: backslash, `u`, four hex digits. -/
def escU (v : Nat) : List Nat := 92 :: 117 :: hex4 v

/-- Encoding of one code point of a string into JSON bytes.

Modelled from the spec: the body of `appendEncodedJSONFromString` is not under
src (only its callers and its test `append_string_test.go` are), so this
follows the spec's words — "wraps in quotes; escapes quote, backslash, and the
eight JSON-style control escapes; escapes any byte ≥ 0x80 or rune ≥ U+0080
using \uXXXX (and a surrogate pair for code points beyond the Basic
Multilingual Plane)" — with remaining control characters written as `\u00XX`
as the test vectors in src/append_string_test.go require. -/
def encodeRuneJSON (c : Char) : List Nat :=
  let n := c.toNat
  if n = 34 then [92, 34]
  else if n = 92 then [92, 92]
  else if n = 8 then [92, 98]
  else if n = 12 then [92, 102]
  else if n = 10 then [92, 110]
  else if n = 13 then [92, 114]
  else if n = 9 then [92, 116]
  else if n < 32 then escU n
  else if n < 128 then [n]
  else if n < 65536 then escU n
  else escU (55296 + (n - 65536) / 1024) ++ escU (56320 + (n - 65536) % 1024)

/-- Modelled from the spec: JSON string encoder `appendEncodedJSONFromString`
(missing from src; known there only through its callers and its test).  It
appends to `buf` a double quote, the escaped encoding of every code point of
`s`, and a closing double quote. -/
def appendEncodedJSONFromString (buf : List Nat) (s : GoStr) : List Nat :=
  buf ++ [34] ++ s.flatMap encodeRuneJSON ++ [34]

/-- UTF-8 encoding of a code point, as Go's `utf8.EncodeRune`: surrogates and
out-of-range values encode the replacement character U+FFFD. -/
def utf8EncodeRune (r : Nat) : List Nat :=
  if r < 128 then [r]
  else if r < 2048 then [192 + r / 64, 128 + r % 64]
  else if 55296 ≤ r ∧ r < 57344 then [239, 191, 189]
  else if r < 65536 then [224 + r / 4096, 128 + r / 64 % 64, 128 + r % 64]
  else if r < 1114112 then
    [240 + r / 262144, 128 + r / 4096 % 64, 128 + r / 64 % 64, 128 + r % 64]
  else [239, 191, 189]

/-- The UTF-8 bytes of a Go string (its in-memory representation; Go string
equality is equality of these bytes). -/
def utf8Encode (s : GoStr) : List Nat := s.flatMap (fun c => utf8EncodeRune c.toNat)

/-- Go `utf16.IsSurrogate`. -/
def utf16IsSurrogate (r : Nat) : Bool := 55296 ≤ r ∧ r < 57344

/-- Go `utf16.DecodeRune`: combine a surrogate pair, or yield U+FFFD. -/
def utf16DecodeRune (r1 r2 : Nat) : Nat :=
  if 55296 ≤ r1 ∧ r1 < 56320 ∧ 56320 ≤ r2 ∧ r2 < 57344 then
    65536 + (r1 - 55296) * 1024 + (r2 - 56320)
  else 65533

/-- One byte of `parseUint64FromHexSlice`'s loop body (src/append_string_test.go):
Go's wrapping `uint8` subtractions decide digit / upper / lower hex classes. -/
def parseHexByte (b : Nat) : Option Nat :=
  let diff := u8sub b 48
  if diff < 10 then some diff
  else
    let b10 := (b + 10) % 256
    let diffA := u8sub b10 65
    if diffA < 10 then none
    else if diffA < 16 then some diffA
    else
      let diffa := u8sub b10 97
      if diffa < 10 then none
      else if diffa < 16 then some diffa
      else none

/-- `parseUint64FromHexSlice` (src/append_string_test.go): fold four hex digit
bytes into a value, failing on the first invalid byte. -/
def parseUint64FromHexSlice : List Nat → Option Nat
  | [] => some 0
  | b :: rest =>
    match parseHexByte b with
    | none => none
    | some d =>
      match parseUint64FromHexSlice rest with
      | none => none
      | some v => some (d * 16 ^ rest.length + v)

/-- `unescapeSpecialJSON` (src/append_string_test.go): decode one of the 8
special escape bytes. -/
def unescapeSpecialJSON (b : Nat) : Nat × Bool :=
  if b = 34 ∨ b = 92 ∨ b = 47 then (b, true)
  else if b = 98 then (8, true)
  else if b = 102 then (12, true)
  else if b = 110 then (10, true)
  else if b = 114 then (13, true)
  else if b = 116 then (9, true)
  else (b, false)

/-- Result of `decodedStringFromJSON`: the decoded bytes (Go builds them as a
byte slice and returns `string(newBytes)`) with the remainder, or an error
message with the remainder the source returns alongside it. -/
inductive DecodeResult
  | ok (decoded : List Nat) (remainder : List Nat)
  | err (msg : GoStr) (remainder : List Nat)
  deriving Repr, DecidableEq

def msgShortBuffer : GoStr := ("cannot decode string: short buffer").toList

def msgExpectedInitialQuote : GoStr := ("cannot decode string: expected initial quote").toList

def msgExpectedFinalQuote : GoStr := ("cannot decode string: expected final quote").toList

def msgInvalidByte : GoStr := ("cannot decode string: invalid byte").toList

def msgMissingSurrogate : GoStr := ("cannot decode string: missing second half of surrogate pair").toList

def msgInvalidSurrogate : GoStr :=
  ("cannot decode string: cannot decode second half of surrogate pair: invalid byte").toList

/-- The scanning loop of `decodedStringFromJSON` (src/append_string_test.go),
recast from an indexed loop over `buf` to recursion on the unread suffix `l`
(the Go index `i` corresponds to `orig.length - l.length`; every bounds test
`i > buflen-k` becomes a length test on `l`).  `orig` is kept because the
source returns the whole buffer as remainder when no closing quote appears. -/
def decodeLoop (orig : List Nat) (l : List Nat) (acc : List Nat) : DecodeResult :=
  match l with
  | [] => .err msgExpectedFinalQuote orig
  | b :: rest =>
    if b = 92 then
      match rest with
      | [] => .err msgExpectedFinalQuote orig
      | b2 :: rest2 =>
        if (unescapeSpecialJSON b2).2 then
          decodeLoop orig rest2 (acc ++ [(unescapeSpecialJSON b2).1])
        else if b2 = 117 then
          if rest2.length < 5 then .err msgShortBuffer rest2
          else
            match parseUint64FromHexSlice (rest2.take 4) with
            | none => .err msgInvalidByte rest2
            | some v =>
              if utf16IsSurrogate v then
                if (rest2.drop 4).length < 6 ∨ (rest2.drop 4).getD 0 0 ≠ 92 ∨
                    (rest2.drop 4).getD 1 0 ≠ 117 then
                  .err msgMissingSurrogate ((rest2.drop 4).drop 1)
                else
                  match parseUint64FromHexSlice (((rest2.drop 4).drop 2).take 4) with
                  | none => .err msgInvalidSurrogate ((rest2.drop 4).drop 1)
                  | some v2 =>
                    decodeLoop orig (rest2.drop 10)
                      (acc ++ utf8EncodeRune (utf16DecodeRune v v2))
              else decodeLoop orig (rest2.drop 4) (acc ++ utf8EncodeRune v)
        else decodeLoop orig rest2 (acc ++ [b2])
    else if b = 34 then .ok acc rest
    else decodeLoop orig rest (acc ++ [b])
termination_by l.length
decreasing_by
  all_goals simp [List.length_drop]
  all_goals omega

/-- `decodedStringFromJSON` (src/append_string_test.go). -/
def decodedStringFromJSON (buf : List Nat) : DecodeResult :=
  if buf.length < 2 then .err msgShortBuffer buf
  else if buf.getD 0 0 ≠ 34 then .err msgExpectedInitialQuote buf
  else decodeLoop buf (buf.drop 1) []

lemma char_toNat_valid (c : Char) :
    c.toNat < 55296 ∨ (57344 ≤ c.toNat ∧ c.toNat < 1114112) := by
  have h := c.valid
  simp only [UInt32.isValidChar, Nat.isValidChar] at h
  change c.val.toNat < _ ∨ _ ≤ c.val.toNat ∧ c.val.toNat < _
  omega

lemma parseHexByte_hexDigit (d : Nat) (hd : d < 16) :
    parseHexByte (hexDigit d) = some d := by
  interval_cases d <;> decide

lemma take4_hex4 (v : Nat) (t : List Nat) : (hex4 v ++ t).take 4 = hex4 v := rfl

lemma drop4_hex4 (v : Nat) (t : List Nat) : (hex4 v ++ t).drop 4 = t := rfl

lemma parse_hex4 (v : Nat) (hv : v < 65536) :
    parseUint64FromHexSlice (hex4 v) = some v := by
  have h0 : v % 16 < 16 := by omega
  have h1 : v / 16 % 16 < 16 := by omega
  have h2 : v / 256 % 16 < 16 := by omega
  have h3 : v / 4096 % 16 < 16 := by omega
  simp only [hex4, parseUint64FromHexSlice, parseHexByte_hexDigit _ h0,
    parseHexByte_hexDigit _ h1, parseHexByte_hexDigit _ h2, parseHexByte_hexDigit _ h3,
    List.length_cons, List.length_nil]
  norm_num
  omega

/-- Stepping the decode loop over one `\uXXXX` escape of a non-surrogate
BMP value appends that code point's UTF-8 bytes. -/
lemma decodeLoop_escU (v : Nat) (hv : v < 65536) (hns : ¬(55296 ≤ v ∧ v < 57344))
    (orig acc tail : List Nat) (ht : tail ≠ []) :
    decodeLoop orig (escU v ++ tail) acc = decodeLoop orig tail (acc ++ utf8EncodeRune v) := by
  have e1 : escU v ++ tail = 92 :: 117 :: (hex4 v ++ tail) := by simp [escU]
  rw [e1, decodeLoop]
  norm_num [unescapeSpecialJSON]
  have htp : 0 < tail.length := List.length_pos.mpr ht
  have hlen5 : ¬((hex4 v).length + tail.length < 5) := by
    simp [hex4]
    omega
  have hsur : utf16IsSurrogate v = false := by
    simp [utf16IsSurrogate]
    omega
  simp only [if_neg hlen5, take4_hex4, parse_hex4 v hv, hsur, Bool.false_eq_true,
    if_false, drop4_hex4]

/-- Stepping the decode loop over a surrogate pair `\uXXXX\uXXXX` encoding of
a supplementary-plane code point appends that code point's UTF-8 bytes. -/
lemma decodeLoop_escPair (hi lo n : Nat) (hhi : hi = 55296 + (n - 65536) / 1024)
    (hlo : lo = 56320 + (n - 65536) % 1024) (h1 : 65536 ≤ n) (h2 : n < 1114112)
    (orig acc tail : List Nat) :
    decodeLoop orig ((escU hi ++ escU lo) ++ tail) acc
      = decodeLoop orig tail (acc ++ utf8EncodeRune n) := by
  have hhiR : 55296 ≤ hi ∧ hi < 56320 := by constructor <;> omega
  have hloR : 56320 ≤ lo ∧ lo < 57344 := by constructor <;> omega
  have e1 : (escU hi ++ escU lo) ++ tail
      = 92 :: 117 :: (hex4 hi ++ (escU lo ++ tail)) := by simp [escU]
  rw [e1, decodeLoop]
  norm_num [unescapeSpecialJSON]
  have hlen5 : ¬((hex4 hi).length + ((escU lo).length + tail.length) < 5) := by
    simp [hex4, escU]
    omega
  have hsur : utf16IsSurrogate hi = true := by
    simp [utf16IsSurrogate]
    omega
  have hg4 : (hex4 hi ++ (escU lo ++ tail))[4]?.getD 0 = 92 := by simp [hex4, escU]
  have hg5 : (hex4 hi ++ (escU lo ++ tail))[5]?.getD 0 = 117 := by simp [hex4, escU]
  have hcond : ¬((hex4 hi).length + ((escU lo).length + tail.length) - 4 < 6 ∨
      ¬(hex4 hi ++ (escU lo ++ tail))[4]?.getD 0 = 92 ∨
      ¬(hex4 hi ++ (escU lo ++ tail))[5]?.getD 0 = 117) := by
    push_neg
    refine ⟨?_, hg4, hg5⟩
    simp [hex4, escU]
  have hd6 : List.take 4 (List.drop 6 (hex4 hi ++ (escU lo ++ tail))) = hex4 lo := by
    simp [hex4, escU]
  have hd10 : List.drop 10 (hex4 hi ++ (escU lo ++ tail)) = tail := by
    simp [hex4, escU]
  have hdec : utf16DecodeRune hi lo = n := by
    unfold utf16DecodeRune
    rw [if_pos (by omega)]
    omega
  simp only [take4_hex4, parse_hex4 hi (by omega : hi < 65536), hsur, if_true,
    if_neg hcond, hd6, parse_hex4 lo (by omega : lo < 65536), hd10, hdec, if_neg hlen5]

set_option maxHeartbeats 1000000 in
/-- Stepping the decode loop over the encoding of one code point appends that
code point's UTF-8 bytes to the accumulator. -/
lemma decodeLoop_encChar (c : Char) (orig acc tail : List Nat) (ht : tail ≠ []) :
    decodeLoop orig (encodeRuneJSON c ++ tail) acc
      = decodeLoop orig tail (acc ++ utf8EncodeRune c.toNat) := by
  obtain hval := char_toNat_valid c
  simp only [encodeRuneJSON]
  split_ifs with h1 h2 h3 h4 h5 h6 h7 h8 h9 h10
  · rw [h1, show [92, 34] ++ tail = 92 :: 34 :: tail from rfl, decodeLoop]
    norm_num [unescapeSpecialJSON, utf8EncodeRune]
  · rw [h2, show [92, 92] ++ tail = 92 :: 92 :: tail from rfl, decodeLoop]
    norm_num [unescapeSpecialJSON, utf8EncodeRune]
  · rw [h3, show [92, 98] ++ tail = 92 :: 98 :: tail from rfl, decodeLoop]
    norm_num [unescapeSpecialJSON, utf8EncodeRune]
  · rw [h4, show [92, 102] ++ tail = 92 :: 102 :: tail from rfl, decodeLoop]
    norm_num [unescapeSpecialJSON, utf8EncodeRune]
  · rw [h5, show [92, 110] ++ tail = 92 :: 110 :: tail from rfl, decodeLoop]
    norm_num [unescapeSpecialJSON, utf8EncodeRune]
  · rw [h6, show [92, 114] ++ tail = 92 :: 114 :: tail from rfl, decodeLoop]
    norm_num [unescapeSpecialJSON, utf8EncodeRune]
  · rw [h7, show [92, 116] ++ tail = 92 :: 116 :: tail from rfl, decodeLoop]
    norm_num [unescapeSpecialJSON, utf8EncodeRune]
  · exact decodeLoop_escU _ (by omega) (by omega) _ _ _ ht
  · have hne92 : ¬(c.toNat = 92) := by omega
    have hne34 : ¬(c.toNat = 34) := by omega
    rw [show [c.toNat] ++ tail = c.toNat :: tail from rfl, decodeLoop.eq_def]
    simp only [hne92, hne34, if_false, ite_false]
    rw [utf8EncodeRune, if_pos h9]
  · exact decodeLoop_escU _ (by omega) (by omega) _ _ _ ht
  · exact decodeLoop_escPair _ _ c.toNat rfl rfl (by omega) (by omega) _ _ _

/-- Stepping the decode loop over the encoding of a whole string appends the
string's UTF-8 bytes to the accumulator. -/
lemma decodeLoop_encStr (s : GoStr) (orig acc tail : List Nat) (ht : tail ≠ []) :
    decodeLoop orig (s.flatMap encodeRuneJSON ++ tail) acc
      = decodeLoop orig tail (acc ++ utf8Encode s) := by
  induction s generalizing acc with
  | nil => simp [utf8Encode]
  | cons c cs ih =>
    rw [show (c :: cs).flatMap encodeRuneJSON
        = encodeRuneJSON c ++ cs.flatMap encodeRuneJSON by simp]
    rw [List.append_assoc, decodeLoop_encChar c orig acc _ (by simp [ht]), ih]
    simp [utf8Encode]

/-- C6: for every string `s` — including the empty string, control characters,
and multi-byte code points such as ⌘ and 😂 — decoding the JSON encoding
produced by `appendEncodedJSONFromString [] s` succeeds and yields exactly the
bytes of `s` (Go compares strings byte-wise, so the decoded `string(newBytes)`
equals `s` iff the decoded bytes are the UTF-8 bytes of `s`), with no
remaining bytes.  The encoder wraps in quotes, escapes quote, backslash and
the control escapes, and writes every rune at or above U+0080 as `\uXXXX`
(with a surrogate pair beyond the Basic Multilingual Plane). -/
theorem stringEncode_then_decode_roundtrips (s : GoStr) :
    decodedStringFromJSON (appendEncodedJSONFromString [] s)
      = .ok (utf8Encode s) [] := by
  rw [show appendEncodedJSONFromString [] s = 34 :: (s.flatMap encodeRuneJSON ++ [34])
      from by simp [appendEncodedJSONFromString]]
  rw [decodedStringFromJSON]
  rw [if_neg (by simp)]
  rw [if_neg (by simp)]
  rw [show (34 :: (s.flatMap encodeRuneJSON ++ [34])).drop 1
      = s.flatMap encodeRuneJSON ++ [34] from rfl]
  rw [decodeLoop_encStr s _ [] [34] (by simp)]
  rw [decodeLoop]
  norm_num

/-- ASCII bytes of a Lean string literal (used for the fixed byte strings the
source appends). -/
def ascii (s : String) : List Nat := s.toList.map Char.toNat

/-- Decimal digit bytes of a natural number, most significant first (the
rendering `strconv.AppendInt`/`AppendUint` produce); fuel-based so the kernel
can evaluate it. -/
def natDecAux : Nat → Nat → List Nat → List Nat
  | 0, _, acc => acc
  | fuel + 1, n, acc =>
    if n < 10 then (48 + n) :: acc else natDecAux fuel (n / 10) ((48 + n % 10) :: acc)

def decBytesOfNat (n : Nat) : List Nat := natDecAux (n + 1) n []

/-- `strconv.AppendInt(buf, v, 10)`. -/
def strconvAppendInt (buf : List Nat) (v : GoInt) : List Nat :=
  if v < 0 then buf ++ [45] ++ decBytesOfNat v.natAbs else buf ++ decBytesOfNat v.natAbs

/-- `strconv.AppendUint(buf, v, 10)`. -/
def strconvAppendUint (buf : List Nat) (v : Nat) : List Nat := buf ++ decBytesOfNat v

/-!  IEEE-754 binary64 model.  A float is NaN, a signed infinity, or a signed
finite dyadic `±m·2^e2`.  The canonical (hardware) form has either `m = 0`
(zero), or `e2 = -1074` and `0 < m < 2^53` (subnormal or smallest normals), or
`-1074 < e2 ≤ 971` and `2^52 ≤ m < 2^53` (normal).  `strconv`'s shortest
decimal rendering is modelled by searching, for increasing digit counts, the
candidate digit string nearest the value and checking it parses back (rounds)
to the same float; 17 digits always suffice for binary64. -/
inductive GoFloat64
  | nan
  | inf (neg : GoBool)
  | finite (neg : GoBool) (m : Nat) (e2 : GoInt)
  deriving Repr, DecidableEq

/-- `math.IsNaN`. -/
def mathIsNaN : GoFloat64 → GoBool
  | .nan => true
  | _ => false

/-- `math.IsInf(f, sign)`. -/
def mathIsInf (f : GoFloat64) (sign : GoInt) : GoBool :=
  match f with
  | .inf neg => decide ((sign > 0 ∧ neg = false) ∨ (sign < 0 ∧ neg = true) ∨ sign = 0)
  | _ => false

/-- `f64 == math.Floor(f64)`: a finite dyadic is its own floor iff it is an
integer. -/
def eqFloor : GoFloat64 → GoBool
  | .nan => false
  | .inf _ => true
  | .finite _ m e2 => if 0 ≤ e2 then true else decide (m % 2 ^ (-e2).toNat = 0)

/-- Fuel-based base-2 logarithm (floor) of a natural number. -/
def natLog2F : Nat → Nat → Nat
  | 0, _ => 0
  | fuel + 1, n => if n ≤ 1 then 0 else natLog2F fuel (n / 2) + 1

def natLog2 (n : Nat) : Nat := natLog2F (n + 1) n

/-- Round-half-to-even of the fraction `n / d` (`d > 0`). -/
def rhe (n d : Nat) : Nat :=
  let q := n / d
  let r := n % d
  if 2 * r < d then q else if d < 2 * r then q + 1 else if q % 2 = 0 then q else q + 1

/-- Is `2^e ≤ num/den`? -/
def geQPow2 (num den : Nat) (e : GoInt) : GoBool :=
  if 0 ≤ e then decide (den * 2 ^ e.toNat ≤ num) else decide (den ≤ num * 2 ^ (-e).toNat)

/-- Largest `e` with `2^e ≤ num/den` (positive inputs), by a guarded downward
search from a log2-based overestimate. -/
def findEAux (num den : Nat) : Nat → GoInt → GoInt
  | 0, e => e
  | fuel + 1, e => if geQPow2 num den e then e else findEAux num den fuel (e - 1)

def findE (num den : Nat) : GoInt :=
  findEAux num den 16 ((natLog2 num : GoInt) - (natLog2 den : GoInt) + 2)

/-- Round the positive rational `num/den` to the nearest binary64
(ties-to-even), as Go's decimal-to-float conversion does. -/
def nearestFloat64Pos (num den : Nat) : GoFloat64 :=
  let e := findE num den
  if e < -1022 then
    let m := rhe (num * 2 ^ 1074) den
    if m = 0 then .finite false 0 0
    else if m < 2 ^ 53 then .finite false m (-1074)
    else .inf false
  else
    let s : GoInt := 52 - e
    let m := if 0 ≤ s then rhe (num * 2 ^ s.toNat) den else rhe num (den * 2 ^ (-s).toNat)
    if m = 2 ^ 53 then
      if 1023 < e + 1 then .inf false else .finite false (2 ^ 52) (e + 1 - 52)
    else if 1023 < e then .inf false
    else .finite false m (e - 52)

def setSign (neg : GoBool) : GoFloat64 → GoFloat64
  | .finite _ m e2 => .finite neg m e2
  | .inf _ => .inf neg
  | .nan => .nan

/-- The binary64 nearest to the decimal `±D·10^k` (Go's parse / round-trip
reference). -/
def parseDecFloat (neg : GoBool) (D : Nat) (k : GoInt) : GoFloat64 :=
  if D = 0 then .finite neg 0 0
  else if 0 ≤ k then setSign neg (nearestFloat64Pos (D * 10 ^ k.toNat) 1)
  else setSign neg (nearestFloat64Pos D (10 ^ (-k).toNat))

/-- Is `10^t ≤ m·2^e2`? -/
def geQPow10 (m : Nat) (e2 t : GoInt) : GoBool :=
  if 0 ≤ t then
    if 0 ≤ e2 then decide (10 ^ t.toNat ≤ m * 2 ^ e2.toNat)
    else decide (10 ^ t.toNat * 2 ^ (-e2).toNat ≤ m)
  else
    if 0 ≤ e2 then decide (1 ≤ m * 2 ^ e2.toNat * 10 ^ (-t).toNat)
    else decide (2 ^ (-e2).toNat ≤ m * 10 ^ (-t).toNat)

/-- Largest `t` with `10^t ≤ m·2^e2` (positive value), by guarded downward
search from an overestimate. -/
def findE10Aux (m : Nat) (e2 : GoInt) : Nat → GoInt → GoInt
  | 0, t => t
  | fuel + 1, t => if geQPow10 m e2 t then t else findE10Aux m e2 fuel (t - 1)

def findE10 (m : Nat) (e2 : GoInt) : GoInt :=
  findE10Aux m e2 12 (((natLog2 m : GoInt) + e2) * 30103 / 100000 + 3)

/-- Round-half-to-even of `m·2^e2 / 10^k`. -/
def rheTimesPow (m : Nat) (e2 k : GoInt) : Nat :=
  let num := m * (if 0 ≤ e2 then 2 ^ e2.toNat else 1) * (if 0 ≤ k then 1 else 10 ^ (-k).toNat)
  let den := (if 0 ≤ e2 then 1 else 2 ^ (-e2).toNat) * (if 0 ≤ k then 10 ^ k.toNat else 1)
  rhe num den

/-- Decade normalization: when rounding to `nd` digits overflowed into
`nd + 1` digits (e.g. 9.97 at two digits rounding to 100), shift. -/
def normDk (D0 : Nat) (k : GoInt) (nd : Nat) : Nat × GoInt :=
  if 10 ^ nd ≤ D0 then (D0 / 10, k + 1) else (D0, k)

/-- Try to render the positive value `m·2^e2` with exactly `nd` decimal
digits: round to the nearest `nd`-digit decimal and accept a candidate only
if parsing it back yields the same float. -/
def tryND (m : Nat) (e2 e10 : GoInt) (nd : Nat) : Option (Nat × GoInt) :=
  let D1 := (normDk (rheTimesPow m e2 (e10 - nd + 1)) (e10 - nd + 1) nd).1
  let k1 := (normDk (rheTimesPow m e2 (e10 - nd + 1)) (e10 - nd + 1) nd).2
  if 10 ^ (nd - 1) ≤ D1 ∧ D1 < 10 ^ nd ∧ parseDecFloat false D1 k1 = .finite false m e2 then
    some (D1, k1)
  else if 10 ^ (nd - 1) ≤ D1 - 1 ∧ D1 - 1 < 10 ^ nd ∧
      parseDecFloat false (D1 - 1) k1 = .finite false m e2 then
    some (D1 - 1, k1)
  else if 10 ^ (nd - 1) ≤ D1 + 1 ∧ D1 + 1 < 10 ^ nd ∧
      parseDecFloat false (D1 + 1) k1 = .finite false m e2 then
    some (D1 + 1, k1)
  else none

/-- First digit count from `nd` upward (with the given fuel) whose candidate
round-trips; returns its digits and exponent weight. -/
def searchND (m : Nat) (e2 e10 : GoInt) : Nat → Nat → Option (Nat × GoInt)
  | 0, _ => none
  | fuel + 1, nd =>
    match tryND m e2 e10 nd with
    | some r => some r
    | none => searchND m e2 e10 fuel (nd + 1)

/-- Shortest round-tripping decimal `D·10^k` for the positive value `m·2^e2`
(17 digits always suffice for binary64). -/
def shortestDec (m : Nat) (e2 : GoInt) : Option (Nat × GoInt) :=
  searchND m e2 (findE10 m e2) 17 1

/-- Exponent field of `%e` output: sign and at least two digits. -/
def expBytes (e : GoInt) : List Nat :=
  (if e < 0 then [45] else [43]) ++
    (if e.natAbs < 10 then 48 :: decBytesOfNat e.natAbs else decBytesOfNat e.natAbs)

/-- `%e` body from digits and decimal exponent: `d.dddde±XX`. -/
def fmtEDigits (D : Nat) (exp10 : GoInt) : List Nat :=
  match decBytesOfNat D with
  | [] => []
  | d :: rest =>
    (d :: (if rest = [] then [] else 46 :: rest)) ++ [101] ++ expBytes exp10

/-- `%f` body from digits and decimal exponent (no exponent field). -/
def fmtFDigits (D : Nat) (exp10 : GoInt) : List Nat :=
  let ds := decBytesOfNat D
  if 0 ≤ exp10 then
    let ip := exp10.toNat + 1
    if ds.length ≤ ip then ds ++ List.replicate (ip - ds.length) 48
    else ds.take ip ++ [46] ++ ds.drop ip
  else [48, 46] ++ List.replicate (-(exp10 + 1)).toNat 48 ++ ds

/-- `strconv.AppendFloat(buf, f, 'e', -1, 64)` rendering (shortest digits,
exponential form). -/
def formatFloatE : GoFloat64 → List Nat
  | .nan => ascii ("NaN")
  | .inf neg => if neg then ascii ("-Inf") else ascii ("+Inf")
  | .finite neg m e2 =>
    (if neg then [45] else []) ++
      (if m = 0 then ascii ("0e+00")
       else match shortestDec m e2 with
         | some (D, k) => fmtEDigits D (k + (decBytesOfNat D).length - 1)
         | none => ascii ("~"))

/-- `strconv.AppendFloat(buf, f, 'g', -1, 64)` rendering (shortest digits;
`%e` style when the decimal exponent is below -4 or at least 6, else `%f`
style). -/
def formatFloatG : GoFloat64 → List Nat
  | .nan => ascii ("NaN")
  | .inf neg => if neg then ascii ("-Inf") else ascii ("+Inf")
  | .finite neg m e2 =>
    (if neg then [45] else []) ++
      (if m = 0 then ascii ("0")
       else match shortestDec m e2 with
         | some (D, k) =>
           let exp := k + (decBytesOfNat D).length - 1
           if exp < -4 ∨ 6 ≤ exp then fmtEDigits D exp else fmtFDigits D exp
         | none => ascii ("~"))

/-- `appendEncodedJSONFromFloat` (src/append_float.go). -/
def appendEncodedJSONFromFloat (buf : List Nat) (f64 : GoFloat64) : List Nat :=
  if mathIsNaN f64 then buf ++ ascii ("null")
  else if mathIsInf f64 1 then buf ++ ascii ("1e999")
  else if mathIsInf f64 (-1) then buf ++ ascii ("-1e999")
  else if eqFloor f64 then buf ++ formatFloatE f64
  else buf ++ formatFloatG f64

/-! Property encoders (src/lib.go): every appended property ends in a comma,
the trailing-separator convention the terminal call relies on. -/

/-- `appendBool` (src/lib.go). -/
def appendBool (buf : List Nat) (name : GoStr) (value : GoBool) : List Nat :=
  let buf := appendEncodedJSONFromString buf name ++ [58]
  if value then buf ++ ascii ("true,") else buf ++ ascii ("false,")

/-- `appendFloat` (src/lib.go). -/
def appendFloat (buf : List Nat) (name : GoStr) (value : GoFloat64) : List Nat :=
  appendEncodedJSONFromFloat (appendEncodedJSONFromString buf name ++ [58]) value ++ [44]

/-- `appendInt` (src/lib.go). -/
def appendInt (buf : List Nat) (name : GoStr) (value : GoInt) : List Nat :=
  strconvAppendInt (appendEncodedJSONFromString buf name ++ [58]) value ++ [44]

/-- `appendString` (src/lib.go). -/
def appendString (buf : List Nat) (name value : GoStr) : List Nat :=
  appendEncodedJSONFromString (appendEncodedJSONFromString buf name ++ [58]) value ++ [44]

/-- `appendFormat` (src/lib.go): `fmt.Sprintf` belongs to Go's fmt library —
an external collaborator — so the formatted string it produces is taken as a
parameter. -/
def appendFormat (buf : List Nat) (name sprintfResult : GoStr) : List Nat :=
  appendString buf name sprintfResult

/-- `appendUint` (src/lib.go). -/
def appendUint (buf : List Nat) (name : GoStr) (value : Nat) : List Nat :=
  strconvAppendUint (appendEncodedJSONFromString buf name ++ [58]) value ++ [44]

/-!  The event-construction core (the latest structured design: src/logger.go
lines 244-462, src/event.go lines 307-576, src/intermediate.go, with the
`output` sink adapter of src/unnamed/part_004).

A sink (`output.Write` behind its lock) is a function from the handed bytes to
a write outcome: a byte count with an optional error, or a fault (panic) in
the destination.  Each operation that can reach the sink also returns the
list of byte sequences handed to the sink during the call, so "written
exactly once" and "nothing written" are statements about that trace. -/

/-- Go error value (its description string). -/
abbrev GoErr := GoStr

/-- Outcome of one `io.Writer.Write` call. -/
inductive WriteResult
  | ok (n : Nat)
  | fail (n : Nat) (e : GoErr)
  | panic (e : GoErr)

/-- The sink: `output.Write` (src/unnamed/part_004), one in-flight write at
a time; the lock's effect (serialization) is the modelling assumption that
it is a function of the handed bytes. -/
def Sink := List Nat → WriteResult

/-- A time-formatter callback: extends the buffer, or faults with a panic
value (the description Go recovers). -/
def TimeFormatter := List Nat → Except GoErr (List Nat)

/-- `Event` (src/event.go, structured design): the reusable scratch buffer
(always starting with the one-byte prefix `{`), the optional time formatter,
the sink, and the mutex state (`locked` is true while a record is open). -/
structure Event where
  scratch : List Nat
  timeFormatter : Option TimeFormatter
  output : Sink
  locked : GoBool

/-- What the accessor-side of an `Event` call produced: the event's new
state, the byte sequences handed to the sink during the call, and either a
propagated panic or the opened/sentinel answer (`true` = non-nil `*Event`). -/
structure AccessorResult where
  event : Event
  writes : List (List Nat)
  outcome : Except GoErr GoBool

/-- Result of `Event.Msg`: the event state afterwards, the byte sequences
handed to the sink, and either a propagated panic or the returned error. -/
structure MsgResult where
  event : Event
  writes : List (List Nat)
  result : Except GoErr (Option GoErr)

/-- The finished bytes `Event.Msg` builds before handing them to the sink
(src/event.go lines 517-524): append the encoded message property, the
closing delimiter and a newline — or, for the empty message, overwrite the
buffer's final byte with the closing delimiter and append a newline. -/
def msgFinished (e : Event) (s : GoStr) : List Nat :=
  if s ≠ [] then
    e.scratch ++ ascii ("\"message\":") ++ appendEncodedJSONFromString [] s ++ [125, 10]
  else e.scratch.dropLast ++ [125] ++ [10]

/-- `Event.Msg` body for an open (non-nil) event (src/event.go lines
503-528): build the finished bytes, hand them to the sink once, and — via the
deferred cleanup, on success, error and panic alike — truncate the scratch
buffer to one byte and release the lock. -/
def Event.MsgOpen (event : Event) (s : GoStr) : MsgResult :=
  match event.output (msgFinished event s) with
  | .ok _ =>
    ⟨{ event with scratch := (msgFinished event s).take 1, locked := false },
      [msgFinished event s], .ok none⟩
  | .fail _ e =>
    ⟨{ event with scratch := (msgFinished event s).take 1, locked := false },
      [msgFinished event s], .ok (some e)⟩
  | .panic e =>
    ⟨{ event with scratch := (msgFinished event s).take 1, locked := false },
      [msgFinished event s], .error e⟩

/-- Result of `Event.Msg` through the nil-tolerant receiver. -/
structure MsgResultO where
  event : Option Event
  writes : List (List Nat)
  result : Except GoErr (Option GoErr)

/-- `Event.Msg` (src/event.go): a nil receiver is a no-op returning nil
error and touching no buffer and no sink. -/
def Event.Msg : Option Event → GoStr → MsgResultO
  | none, _ => ⟨none, [], .ok none⟩
  | some event, s =>
    let r := Event.MsgOpen event s
    ⟨some r.event, r.writes, r.result⟩

/-- `Event.Err` body on an open event (src/event.go lines 443-455). -/
def Event.ErrOpen (e : Event) (err : Option GoErr) : Event :=
  match err with
  | some d =>
    { e with scratch :=
        e.scratch ++ ascii ("\"error\":") ++ appendEncodedJSONFromString [] d ++ [44] }
  | none => { e with scratch := e.scratch ++ ascii ("\"error\":null,") }

/-- `Event.Err` (src/event.go): nil-tolerant receiver. -/
def Event.Err (event : Option Event) (err : Option GoErr) : Option Event :=
  match event with
  | none => none
  | some e => some (e.ErrOpen err)

/-- `Event.Bool` (src/event.go). -/
def Event.Bool (event : Option Event) (name : GoStr) (value : GoBool) : Option Event :=
  match event with
  | none => none
  | some e => some { e with scratch := appendBool e.scratch name value }

/-- `Event.Float` (src/event.go). -/
def Event.Float (event : Option Event) (name : GoStr) (value : GoFloat64) : Option Event :=
  match event with
  | none => none
  | some e => some { e with scratch := appendFloat e.scratch name value }

/-- `Event.Format` (src/event.go); the `fmt.Sprintf` result is a parameter
(fmt is an external collaborator). -/
def Event.Format (event : Option Event) (name f sprintfResult : GoStr) : Option Event :=
  match event with
  | none => none
  | some e => some { e with scratch := appendFormat e.scratch name sprintfResult }

/-- `Event.Int` (src/event.go). -/
def Event.Int (event : Option Event) (name : GoStr) (value : GoInt) : Option Event :=
  match event with
  | none => none
  | some e => some { e with scratch := appendInt e.scratch name value }

/-- `Event.Int64` (src/event.go). -/
def Event.Int64 (event : Option Event) (name : GoStr) (value : GoInt) : Option Event :=
  match event with
  | none => none
  | some e => some { e with scratch := appendInt e.scratch name value }

/-- `Event.String` (src/event.go). -/
def Event.String (event : Option Event) (name value : GoStr) : Option Event :=
  match event with
  | none => none
  | some e => some { e with scratch := appendString e.scratch name value }

/-- `Event.Uint` (src/event.go). -/
def Event.Uint (event : Option Event) (name : GoStr) (value : Nat) : Option Event :=
  match event with
  | none => none
  | some e => some { e with scratch := appendUint e.scratch name value }

/-- `Event.Uint64` (src/event.go). -/
def Event.Uint64 (event : Option Event) (name : GoStr) (value : Nat) : Option Event :=
  match event with
  | none => none
  | some e => some { e with scratch := appendUint e.scratch name value }

/-- The fixed message of the substitute record written when the time
formatter faults. -/
def panicMsg : GoStr := ("panic when time formatter invoked").toList

/-- Common body of the accessors `Event.log/debug/verbose/info/warning/error`
(src/event.go lines 326-395), with the severity label bytes as the argument
(empty for `log`): take the lock; if a time formatter is set, run it and — on
a fault — reset the buffer to its prefix, build and emit the substitute
record through `Err(err).Msg(...)` and answer the nil sentinel
(`formatTimePanics`, src/event.go lines 401-420); otherwise append the label
and the branch bytes and answer the open event. -/
def Event.openWith (event : Event) (label branch : List Nat) : AccessorResult :=
  let ev1 : Event := { event with locked := true }
  match ev1.timeFormatter with
  | none =>
    ⟨{ ev1 with scratch :=
        (ev1.scratch ++ label) ++ (if branch.length > 0 then branch else []) },
      [], .ok true⟩
  | some tf =>
    match tf ev1.scratch with
    | .ok buf =>
      ⟨{ ev1 with scratch :=
          (buf ++ label) ++ (if branch.length > 0 then branch else []) },
        [], .ok true⟩
    | .error desc =>
      let ev2 : Event := { ev1 with scratch := ev1.scratch.take 1 }
      let r := Event.MsgOpen (ev2.ErrOpen (some desc)) panicMsg
      ⟨r.event, r.writes,
        match r.result with
        | .ok _ => .ok false
        | .error e => .error e⟩

/-- `Event.log` (src/event.go lines 326-335): no severity label. -/
def Event.log (event : Event) (branch : List Nat) : AccessorResult :=
  Event.openWith event [] branch

/-- `Event.debug` (src/event.go). -/
def Event.debug (event : Event) (branch : List Nat) : AccessorResult :=
  Event.openWith event (ascii ("\"level\":\"debug\",")) branch

/-- `Event.verbose` (src/event.go). -/
def Event.verbose (event : Event) (branch : List Nat) : AccessorResult :=
  Event.openWith event (ascii ("\"level\":\"verbose\",")) branch

/-- `Event.info` (src/event.go). -/
def Event.info (event : Event) (branch : List Nat) : AccessorResult :=
  Event.openWith event (ascii ("\"level\":\"info\",")) branch

/-- `Event.warning` (src/event.go). -/
def Event.warning (event : Event) (branch : List Nat) : AccessorResult :=
  Event.openWith event (ascii ("\"level\":\"warning\",")) branch

/-- `Event.error` (src/event.go). -/
def Event.error (event : Event) (branch : List Nat) : AccessorResult :=
  Event.openWith event (ascii ("\"level\":\"error\",")) branch

/-- `Level` (src/unnamed/part_004 lines 9-18): Debug < Verbose < Info <
Warning < Error, stored as a uint32. -/
inductive Level
  | debug
  | verbose
  | info
  | warning
  | error
  deriving Repr, DecidableEq

def Level.toNat : Level → Nat
  | .debug => 0
  | .verbose => 1
  | .info => 2
  | .warning => 3
  | .error => 4

/-- The spec's admission predicate: `admits(threshold, level)` iff
`level ≥ threshold`. -/
def admits (threshold level : Level) : GoBool := decide (threshold.toNat ≤ level.toNat)

/-- `Logger` (src/logger.go lines 252-261, structured design): the reusable
event, the branch bytes, the threshold (a uint32) and the tracing flag. -/
structure Logger where
  event : Event
  branch : List Nat
  level : Nat
  tracing : GoBool

/-- `Logger.SetLevel` (src/logger.go). -/
def Logger.SetLevel (log : Logger) (level : Level) : Logger :=
  { log with level := level.toNat }

/-- `Logger.Log` (src/logger.go lines 343-348): ungated, no level label. -/
def Logger.Log (log : Logger) : AccessorResult :=
  log.event.log log.branch

/-- `Logger.Debug` (src/logger.go lines 353-358). -/
def Logger.Debug (log : Logger) : AccessorResult :=
  if log.tracing || decide (log.level ≤ Level.debug.toNat) then log.event.debug log.branch
  else ⟨log.event, [], .ok false⟩

/-- `Logger.Verbose` (src/logger.go lines 363-368). -/
def Logger.Verbose (log : Logger) : AccessorResult :=
  if log.tracing || decide (log.level ≤ Level.verbose.toNat) then log.event.verbose log.branch
  else ⟨log.event, [], .ok false⟩

/-- `Logger.Info` (src/logger.go lines 373-378). -/
def Logger.Info (log : Logger) : AccessorResult :=
  if log.tracing || decide (log.level ≤ Level.info.toNat) then log.event.info log.branch
  else ⟨log.event, [], .ok false⟩

/-- `Logger.Warning` (src/logger.go lines 384-389). -/
def Logger.Warning (log : Logger) : AccessorResult :=
  if log.tracing || decide (log.level ≤ Level.warning.toNat) then log.event.warning log.branch
  else ⟨log.event, [], .ok false⟩

/-- `Logger.Error` (src/logger.go lines 393-395): no gate check at all. -/
def Logger.Error (log : Logger) : AccessorResult :=
  log.event.error log.branch

/-- Dispatch from a `Level` to the Logger accessor of that severity. -/
def Logger.accessorAt (log : Logger) : Level → AccessorResult
  | .debug => log.Debug
  | .verbose => log.Verbose
  | .info => log.Info
  | .warning => log.Warning
  | .error => log.Error

/-- The bytes of the substitute record synthesized when the time formatter
faults: the retained prefix, the `"error"` property carrying the fault
description, and the fixed message. -/
def substituteRecord (prefixB : List Nat) (desc : GoErr) : List Nat :=
  prefixB ++ ascii ("\"error\":") ++ appendEncodedJSONFromString [] desc ++ [44] ++
    ascii ("\"message\":") ++ appendEncodedJSONFromString [] panicMsg ++ [125, 10]

lemma msgOpen_writes (e : Event) (s : GoStr) :
    (Event.MsgOpen e s).writes = [msgFinished e s] := by
  unfold Event.MsgOpen
  split <;> rfl

lemma msgOpen_event (e : Event) (s : GoStr) :
    (Event.MsgOpen e s).event =
      { e with scratch := (msgFinished e s).take 1, locked := false } := by
  unfold Event.MsgOpen
  split <;> rfl

lemma msgOpen_result_ok (e : Event) (s : GoStr) (n : Nat)
    (h : e.output (msgFinished e s) = .ok n) :
    (Event.MsgOpen e s).result = .ok none := by
  unfold Event.MsgOpen
  rw [h]

lemma msgOpen_result_fail (e : Event) (s : GoStr) (n : Nat) (err : GoErr)
    (h : e.output (msgFinished e s) = .fail n err) :
    (Event.MsgOpen e s).result = .ok (some err) := by
  unfold Event.MsgOpen
  rw [h]

lemma msgOpen_result_panic (e : Event) (s : GoStr) (p : GoErr)
    (h : e.output (msgFinished e s) = .panic p) :
    (Event.MsgOpen e s).result = .error p := by
  unfold Event.MsgOpen
  rw [h]

lemma msg_writes_once (e : Event) (s : GoStr) :
    (Event.Msg (some e) s).writes = [msgFinished e s] := by
  simp [Event.Msg, msgOpen_writes]

/-- An accessor body with no time formatter set: opens the event (label and
branch appended under the lock), hands nothing to the sink. -/
lemma openWith_no_formatter (e : Event) (label branch : List Nat)
    (hF : e.timeFormatter = none) :
    Event.openWith e label branch =
      ⟨{ e with
          locked := true
          scratch := (e.scratch ++ label) ++ (if branch.length > 0 then branch else []) },
        [], .ok true⟩ := by
  unfold Event.openWith
  simp [hF]

/-- An accessor body whose time formatter faults: the substitute record is
built from the one-byte retained prefix and written, the scratch buffer ends
truncated, the lock ends released, and the sentinel is answered — provided
the sink itself does not fault on the substitute write. -/
lemma openWith_formatter_panic (e : Event) (tf : TimeFormatter) (desc : GoErr)
    (label branch : List Nat)
    (hF : e.timeFormatter = some tf) (hp : tf e.scratch = .error desc)
    (hnp : ∀ p, e.output (substituteRecord (e.scratch.take 1) desc) ≠ .panic p) :
    Event.openWith e label branch =
      ⟨{ e with
          scratch := (substituteRecord (e.scratch.take 1) desc).take 1
          locked := false },
        [substituteRecord (e.scratch.take 1) desc], .ok false⟩ := by
  have hbuf2 : msgFinished
      (Event.ErrOpen (Event.mk (List.take 1 e.scratch) (some tf) e.output true) (some desc))
      panicMsg = substituteRecord (List.take 1 e.scratch) desc := by
    simp [msgFinished, Event.ErrOpen, substituteRecord, panicMsg]
  unfold Event.openWith
  simp only [hF, hp]
  simp only [AccessorResult.mk.injEq]
  refine ⟨?_, ?_, ?_⟩
  · rw [msgOpen_event, hbuf2]
    simp [Event.ErrOpen]
  · rw [msgOpen_writes, hbuf2]
  · rcases hout : e.output (substituteRecord (List.take 1 e.scratch) desc) with n | ⟨n, err⟩ | p
    · have h1 : ((Event.ErrOpen (Event.mk (List.take 1 e.scratch) (some tf) e.output true)
          (some desc)).MsgOpen panicMsg).result = .ok none := by
        apply msgOpen_result_ok _ _ n
        rw [hbuf2]
        exact hout
      rw [h1]
    · have h2 : ((Event.ErrOpen (Event.mk (List.take 1 e.scratch) (some tf) e.output true)
          (some desc)).MsgOpen panicMsg).result = .ok (some err) := by
        apply msgOpen_result_fail _ _ n err
        rw [hbuf2]
        exact hout
      rw [h2]
    · exact absurd hout (hnp p)

/-- C9: every Event method is a safe no-op on the filtered sentinel (the nil
Event a non-admitted accessor returns): each property method returns the
sentinel unchanged, and the terminal `Msg` on the sentinel hands nothing to
the sink and returns a nil error. -/
theorem sentinel_event_methods_are_noops :
    (∀ name value, Event.Bool none name value = none) ∧
    (∀ err, Event.Err none err = none) ∧
    (∀ name value, Event.Float none name value = none) ∧
    (∀ name f s, Event.Format none name f s = none) ∧
    (∀ name value, Event.Int none name value = none) ∧
    (∀ name value, Event.Int64 none name value = none) ∧
    (∀ name value, Event.String none name value = none) ∧
    (∀ name value, Event.Uint none name value = none) ∧
    (∀ name value, Event.Uint64 none name value = none) ∧
    (∀ s, (Event.Msg none s).writes = [] ∧ (Event.Msg none s).result = .ok none ∧
      (Event.Msg none s).event = none) :=
  ⟨fun _ _ => rfl, fun _ => rfl, fun _ _ => rfl, fun _ _ _ => rfl, fun _ _ => rfl,
    fun _ _ => rfl, fun _ _ => rfl, fun _ _ => rfl, fun _ _ => rfl,
    fun _ => ⟨rfl, rfl, rfl⟩⟩

/-- C2: the terminal `Msg` on an open Event hands the finished bytes to the
sink exactly once and returns the sink's error (or nil); with non-empty text
the finished bytes are the scratch buffer followed by the encoded `"message"`
property, the closing `}` and a newline; with empty text the buffer's final
trailing-separator byte (a comma) is overwritten with `}` (so no `"message"`
field appears) and a newline is appended. -/
theorem msg_terminal_encoding_and_sink (e : Event) (s : GoStr) :
    (Event.Msg (some e) s).writes = [msgFinished e s] ∧
    (s ≠ [] → msgFinished e s =
      e.scratch ++ ascii ("\"message\":") ++ appendEncodedJSONFromString [] s ++ [125, 10]) ∧
    (∀ p, s = [] → e.scratch = p ++ [44] → msgFinished e s = p ++ [125, 10]) ∧
    (∀ n, e.output (msgFinished e s) = .ok n → (Event.Msg (some e) s).result = .ok none) ∧
    (∀ n err, e.output (msgFinished e s) = .fail n err →
      (Event.Msg (some e) s).result = .ok (some err)) := by
  refine ⟨msg_writes_once e s, ?_, ?_, ?_, ?_⟩
  · intro hs
    unfold msgFinished
    rw [if_pos hs]
  · intro p hs hsc
    subst hs
    unfold msgFinished
    rw [if_neg (by simp), hsc]
    simp
  · intro n h
    show (Event.MsgOpen e s).result = _
    exact msgOpen_result_ok e s n h
  · intro n err h
    show (Event.MsgOpen e s).result = _
    exact msgOpen_result_fail e s n err h

/-- Witness for C2 at a concrete open event whose scratch ends in a comma,
with the empty message: the comma is overwritten and `}\n` closes the
record, which is handed to the sink once. -/
theorem msg_terminal_encoding_and_sink_witness :
    (Event.Msg (some (Event.mk [123, 97, 44] none (fun _ => WriteResult.ok 7) true)) []).writes
      = [[123, 97, 125, 10]] := by
  obtain ⟨hw, _, hemp, _, _⟩ :=
    msg_terminal_encoding_and_sink (Event.mk [123, 97, 44] none (fun _ => WriteResult.ok 7) true) []
  rw [hw, hemp [123, 97] rfl rfl]
  rfl

/-- Counterexample to C3 as stated: on the open Event produced by the ungated
`Log()` accessor of an idle Logger (scratch = `{` only), the empty-message
terminal call overwrites the `{` itself, so the retained one-byte buffer is
`}` — not the `{` prefix the claim asserts. -/
theorem msg_reset_counterexample :
    ((Event.Msg (some (Event.mk [123] none (fun _ => WriteResult.ok 2) true)) []).event.map
      Event.scratch) = some [125] ∧ ¬([125] = ([123] : List Nat)) := by
  constructor
  · rfl
  · decide

lemma take_one_append (l r : List Nat) (h : l.take 1 = [123]) : (l ++ r).take 1 = [123] := by
  cases l with
  | nil => simp at h
  | cons a t =>
    simp at h
    simp [h]

lemma take_one_dropLast (l r : List Nat) (h : l.take 1 = [123]) (hlen : 2 ≤ l.length) :
    (l.dropLast ++ r).take 1 = [123] := by
  match l, hlen with
  | a :: b :: t, _ =>
    simp at h
    simp [h, List.dropLast]

/-- C3 (amended): after every terminal `Msg` call on an open Event — sink
success, sink error, or sink panic alike — the Event's scratch buffer is
truncated back to a single byte and the lock is released; that byte is the
`{` prefix whenever the call had a non-empty message or at least one byte
beyond the prefix (every record with a level label or property), the sole
exception being the one-byte buffer with an empty message, where the
retained byte is `}`. -/
theorem msg_cleanup_always_unlocks_and_truncates (e : Event) (s : GoStr) :
    ∃ ev, (Event.Msg (some e) s).event = some ev ∧
      ev.locked = false ∧
      ev.scratch.length = 1 ∧
      (e.scratch.take 1 = [123] → (s ≠ [] ∨ 2 ≤ e.scratch.length) → ev.scratch = [123]) := by
  refine ⟨(Event.MsgOpen e s).event, rfl, ?_, ?_, ?_⟩
  · rw [msgOpen_event]
  · rw [msgOpen_event]
    have hne : msgFinished e s ≠ [] := by
      unfold msgFinished
      split <;> simp
    have := List.length_pos.mpr hne
    simp [List.length_take]
    omega
  · intro hpre hcase
    rw [msgOpen_event]
    show (msgFinished e s).take 1 = [123]
    unfold msgFinished
    rcases hcase with hs | hlen
    · rw [if_pos hs]
      exact take_one_append _ _ (take_one_append _ _ (take_one_append _ _ hpre))
    · split
      · exact take_one_append _ _ (take_one_append _ _ (take_one_append _ _ hpre))
      · exact take_one_append _ _ (take_one_dropLast e.scratch [125] hpre hlen)

/-- Witness for the amended C3: at a concrete open event with a level label
in the buffer and a panicking sink, the lock is released and the buffer ends
as the one-byte `{` prefix. -/
theorem msg_cleanup_always_unlocks_and_truncates_witness :
    ∃ ev, (Event.Msg (some (Event.mk [123, 97, 44] none (fun _ => WriteResult.panic ([]))
      true)) []).event = some ev ∧ ev.locked = false ∧ ev.scratch.length = 1 ∧ ev.scratch = [123] := by
  obtain ⟨ev, h1, h2, h3, h4⟩ := msg_cleanup_always_unlocks_and_truncates
    (Event.mk [123, 97, 44] none (fun _ => WriteResult.panic ([])) true) []
  exact ⟨ev, h1, h2, h3, h4 rfl (Or.inr (by decide))⟩

/-- C10: on a Logger with an empty branch buffer, no time formatter and an
idle scratch buffer (`{` only), the ungated `Log()` accessor opens an event
without appending anything, and completing it with `Msg("")` and no property
calls emits exactly the two bytes `}` and newline: the empty-message branch
overwrites the record-open `{` itself, so the written line has no opening
delimiter. -/
theorem log_accessor_empty_message_writes_brace_newline (log : Logger)
    (hb : log.branch = []) (hf : log.event.timeFormatter = none)
    (hs : log.event.scratch = [123]) :
    (Logger.Log log).outcome = .ok true ∧
    (Logger.Log log).writes = [] ∧
    (Event.Msg (some (Logger.Log log).event) []).writes = [[125, 10]] ∧
    (∀ w ∈ (Event.Msg (some (Logger.Log log).event) []).writes, w.take 1 ≠ [123]) := by
  have hopen : Logger.Log log =
      ⟨{ log.event with
          locked := true
          scratch := (log.event.scratch ++ []) ++
            (if log.branch.length > 0 then log.branch else []) },
        [], .ok true⟩ := openWith_no_formatter log.event [] log.branch hf
  rw [hopen]
  refine ⟨rfl, rfl, ?_, ?_⟩
  · rw [msg_writes_once]
    unfold msgFinished
    rw [if_neg (by simp)]
    simp [hs, hb]
  · intro w hw
    rw [msg_writes_once] at hw
    simp at hw
    subst hw
    unfold msgFinished
    rw [if_neg (by simp)]
    simp [hs, hb]

/-- Witness for C10: a concrete idle Logger with empty branch and no
formatter; `Log()` then `Msg("")` writes exactly `}\n`. -/
theorem log_accessor_empty_message_witness :
    (Event.Msg (some (Logger.Log (Logger.mk
      (Event.mk [123] none (fun _ => WriteResult.ok 2) false) [] 3 false)).event) []).writes
      = [[125, 10]] :=
  (log_accessor_empty_message_writes_brace_newline
    (Logger.mk (Event.mk [123] none (fun _ => WriteResult.ok 2) false) [] 3 false)
    rfl rfl rfl).2.2.1

/-- Spec-level gate for one accessor call: the accessor result equals the
gate condition applied to the common open body. -/
lemma gated_accessor_spec (log : Logger) (lab : List Nat) (cond : GoBool)
    (hF : log.event.timeFormatter = none)
    (acc : AccessorResult)
    (hacc : acc = if cond then log.event.openWith lab log.branch else ⟨log.event, [], .ok false⟩) :
    (acc.outcome = .ok true ↔ cond = true) ∧ acc.writes = [] := by
  subst hacc
  cases cond
  · simp
  · rw [if_pos rfl, openWith_no_formatter _ _ _ hF]
    simp

/-- C1: with no time formatter installed, a level accessor of a Logger at
threshold T returns an open Event iff its severity L satisfies
`admits(T, L)` (that is, `L ≥ T`) or the tracing flag is set; the accessor
itself hands nothing to the sink, an open Event's terminal call hands the
record to the sink exactly once, the sentinel's terminal call hands nothing,
and `Error()` performs no gate check — it always returns an open Event. -/
theorem accessor_gate_iff_admits (log : Logger) (T L : Level)
    (hT : log.level = T.toNat) (hF : log.event.timeFormatter = none) :
    ((log.accessorAt L).outcome = .ok true ↔ (log.tracing = true ∨ admits T L = true)) ∧
    (log.accessorAt L).writes = [] ∧
    (∀ s, (Event.Msg (some (log.accessorAt L).event) s).writes.length = 1) ∧
    (∀ s, (Event.Msg none s).writes = []) ∧
    ((Logger.Error log).outcome = .ok true) := by
  have hmsg : ∀ ev s, (Event.Msg (some ev) s).writes.length = 1 := by
    intro ev s
    rw [msg_writes_once]
    rfl
  have herr : (Logger.Error log).outcome = .ok true := by
    show (Event.openWith log.event _ log.branch).outcome = _
    rw [openWith_no_formatter _ _ _ hF]
  have hgate : ∀ lab cond (acc : AccessorResult),
      acc = (if cond then log.event.openWith lab log.branch else ⟨log.event, [], .ok false⟩) →
      ((acc.outcome = .ok true ↔ cond = true) ∧ acc.writes = []) :=
    fun lab cond acc hacc => gated_accessor_spec log lab cond hF acc hacc
  cases L
  case debug =>
    obtain ⟨h1, h2⟩ := hgate (ascii ("\"level\":\"debug\",")) _ (Logger.Debug log) rfl
    refine ⟨?_, h2, fun s => hmsg _ s, fun _ => rfl, herr⟩
    rw [show Logger.accessorAt log Level.debug = Logger.Debug log from rfl, h1]
    simp [admits, Level.toNat, hT]
  case verbose =>
    obtain ⟨h1, h2⟩ := hgate (ascii ("\"level\":\"verbose\",")) _ (Logger.Verbose log) rfl
    refine ⟨?_, h2, fun s => hmsg _ s, fun _ => rfl, herr⟩
    rw [show Logger.accessorAt log Level.verbose = Logger.Verbose log from rfl, h1]
    simp [admits, Level.toNat, hT]
  case info =>
    obtain ⟨h1, h2⟩ := hgate (ascii ("\"level\":\"info\",")) _ (Logger.Info log) rfl
    refine ⟨?_, h2, fun s => hmsg _ s, fun _ => rfl, herr⟩
    rw [show Logger.accessorAt log Level.info = Logger.Info log from rfl, h1]
    simp [admits, Level.toNat, hT]
  case warning =>
    obtain ⟨h1, h2⟩ := hgate (ascii ("\"level\":\"warning\",")) _ (Logger.Warning log) rfl
    refine ⟨?_, h2, fun s => hmsg _ s, fun _ => rfl, herr⟩
    rw [show Logger.accessorAt log Level.warning = Logger.Warning log from rfl, h1]
    simp [admits, Level.toNat, hT]
  case error =>
    refine ⟨?_, ?_, fun s => hmsg _ s, fun _ => rfl, herr⟩
    · rw [show Logger.accessorAt log Level.error = Logger.Error log from rfl, herr]
      simp [admits, Level.toNat]
      cases T <;> simp [Level.toNat]
    · show (Event.openWith log.event _ log.branch).writes = []
      rw [openWith_no_formatter _ _ _ hF]

/-- Witness for C1: a non-tracing Logger at threshold Warning does not admit
Info. -/
theorem accessor_gate_iff_admits_witness :
    ((Logger.mk (Event.mk [123] none (fun _ => WriteResult.ok 0) false) [] 3
      false).accessorAt Level.info).outcome = Except.ok true ↔
      ((Logger.mk (Event.mk [123] none (fun _ => WriteResult.ok 0) false) [] 3
        false).tracing = true ∨ admits Level.warning Level.info = true) :=
  (accessor_gate_iff_admits
    (Logger.mk (Event.mk [123] none (fun _ => WriteResult.ok 0) false) [] 3 false)
    Level.warning Level.info rfl rfl).1

/-- C4: when the installed time formatter faults during an admitted logging
call (and the sink itself does not fault), the panic is contained: the
accessor returns the filtered sentinel (no panic propagates and no error is
returned), the scratch buffer ends reset to its `{` prefix with the lock
released, and the sink receives exactly one record — the substitute record
`{"error":<fault description>,"message":"panic when time formatter
invoked"}` — so the original record is never partially written. -/
theorem timeformatter_panic_contained (log : Logger) (L : Level)
    (tf : TimeFormatter) (desc : GoErr)
    (hF : log.event.timeFormatter = some tf)
    (hp : tf log.event.scratch = .error desc)
    (hpre : log.event.scratch.take 1 = [123])
    (hadm : log.tracing = true ∨ log.level ≤ L.toNat)
    (hnp : ∀ p, log.event.output (substituteRecord [123] desc) ≠ .panic p) :
    (log.accessorAt L).outcome = .ok false ∧
    (log.accessorAt L).writes = [substituteRecord [123] desc] ∧
    (log.accessorAt L).event.scratch = [123] ∧
    (log.accessorAt L).event.locked = false := by
  have hnp2 : ∀ p, log.event.output (substituteRecord (log.event.scratch.take 1) desc)
      ≠ .panic p := by
    rw [hpre]
    exact hnp
  have hopen : ∀ lab, Event.openWith log.event lab log.branch =
      ⟨{ log.event with
          scratch := (substituteRecord [123] desc).take 1
          locked := false },
        [substituteRecord [123] desc], .ok false⟩ := by
    intro lab
    rw [openWith_formatter_panic log.event tf desc lab log.branch hF hp hnp2, hpre]
  have htake : (substituteRecord [123] desc).take 1 = [123] := by
    unfold substituteRecord
    exact take_one_append _ _ (take_one_append _ _ (take_one_append _ _
      (take_one_append _ _ (take_one_append _ _ (take_one_append _ _ rfl)))))
  have hacc : log.accessorAt L =
      ⟨{ log.event with
          scratch := (substituteRecord [123] desc).take 1
          locked := false },
        [substituteRecord [123] desc], .ok false⟩ := by
    cases L
    case error => exact hopen _
    case debug =>
      show Logger.Debug log = _
      unfold Logger.Debug
      rw [if_pos (by rcases hadm with h | h
                     · simp [h]
                     · simp [decide_eq_true h])]
      exact hopen _
    case verbose =>
      show Logger.Verbose log = _
      unfold Logger.Verbose
      rw [if_pos (by rcases hadm with h | h
                     · simp [h]
                     · simp [decide_eq_true h])]
      exact hopen _
    case info =>
      show Logger.Info log = _
      unfold Logger.Info
      rw [if_pos (by rcases hadm with h | h
                     · simp [h]
                     · simp [decide_eq_true h])]
      exact hopen _
    case warning =>
      show Logger.Warning log = _
      unfold Logger.Warning
      rw [if_pos (by rcases hadm with h | h
                     · simp [h]
                     · simp [decide_eq_true h])]
      exact hopen _
  rw [hacc]
  exact ⟨rfl, rfl, htake, rfl⟩

/-- Witness for C4 at a concrete Logger whose formatter always panics with
description `x`, severity Info at threshold Debug, and a non-faulting sink. -/
theorem timeformatter_panic_contained_witness :
    ((Logger.mk (Event.mk [123] (some (fun _ => Except.error ([Char.ofNat 120])))
        (fun _ => WriteResult.ok 1) false) [] 0 false).accessorAt Level.info).outcome
      = Except.ok false ∧
    ((Logger.mk (Event.mk [123] (some (fun _ => Except.error ([Char.ofNat 120])))
        (fun _ => WriteResult.ok 1) false) [] 0 false).accessorAt Level.info).writes
      = [substituteRecord [123] ([Char.ofNat 120])] := by
  obtain ⟨h1, h2, _, _⟩ := timeformatter_panic_contained
    (Logger.mk (Event.mk [123] (some (fun _ => Except.error ([Char.ofNat 120])))
      (fun _ => WriteResult.ok 1) false) [] 0 false)
    Level.info (fun _ => Except.error ([Char.ofNat 120])) ([Char.ofNat 120])
    rfl rfl rfl (Or.inr (by decide)) (fun p h => by simp at h)
  exact ⟨h1, h2⟩

lemma tryND_sound (m : Nat) (e2 e10 : GoInt) (nd D : Nat) (k : GoInt)
    (h : tryND m e2 e10 nd = some (D, k)) :
    10 ^ (nd - 1) ≤ D ∧ D < 10 ^ nd ∧
      parseDecFloat false D k = GoFloat64.finite false m e2 := by
  simp only [tryND] at h
  split_ifs at h with h1 h2 h3
  · obtain ⟨hD, hk⟩ := Prod.mk.inj (Option.some.inj h)
    refine ⟨?_, ?_, ?_⟩
    · rw [← hD]; exact h1.1
    · rw [← hD]; exact h1.2.1
    · rw [← hD, ← hk]; exact h1.2.2
  · obtain ⟨hD, hk⟩ := Prod.mk.inj (Option.some.inj h)
    refine ⟨?_, ?_, ?_⟩
    · rw [← hD]; exact h2.1
    · rw [← hD]; exact h2.2.1
    · rw [← hD, ← hk]; exact h2.2.2
  · obtain ⟨hD, hk⟩ := Prod.mk.inj (Option.some.inj h)
    refine ⟨?_, ?_, ?_⟩
    · rw [← hD]; exact h3.1
    · rw [← hD]; exact h3.2.1
    · rw [← hD, ← hk]; exact h3.2.2

lemma searchND_sound (m : Nat) (e2 e10 : GoInt) :
    ∀ fuel nd D k, searchND m e2 e10 fuel nd = some (D, k) →
      (parseDecFloat false D k = GoFloat64.finite false m e2 ∧
        ∃ j, nd ≤ j ∧ tryND m e2 e10 j = some (D, k) ∧ 10 ^ (j - 1) ≤ D ∧ D < 10 ^ j ∧
          ∀ i, nd ≤ i → i < j → tryND m e2 e10 i = none) := by
  intro fuel
  induction fuel with
  | zero => intro nd D k h; cases h
  | succ f ih =>
    intro nd D k h
    unfold searchND at h
    rcases htry : tryND m e2 e10 nd with _ | r
    · rw [htry] at h
      obtain ⟨hp, j, hj1, hj2, hj3, hj4, hj5⟩ := ih (nd + 1) D k h
      refine ⟨hp, j, by omega, hj2, hj3, hj4, ?_⟩
      intro i hi hlt
      rcases Nat.eq_or_lt_of_le hi with he | hgt
      · rw [← he]; exact htry
      · exact hj5 i (by omega) hlt
    · rw [htry] at h
      have h2 := Option.some.inj h
      subst h2
      obtain ⟨ha, hb, hc⟩ := tryND_sound m e2 e10 nd D k htry
      exact ⟨hc, nd, le_refl _, htry, ha, hb,
        fun i hi hlt => absurd (lt_of_le_of_lt hi hlt) (lt_irrefl _)⟩

/-- C7: the float value encoder maps NaN to the literal `null`, positive
infinity to `1e999`, negative infinity to `-1e999`; every finite value equal
to its floor is rendered in the exponential (`%e`, shortest-digits) form —
so 3.0 renders as `3e+00` — and every other finite value in the shortest
(`%g`) form — so 3.14 renders as `3.14`; the shortest rendering is
round-trippable: its digits parse back to the same float, and every smaller
digit count's nearest candidates fail to round-trip. -/
theorem float_encoder_spec :
    (∀ buf, appendEncodedJSONFromFloat buf .nan = buf ++ ascii ("null")) ∧
    (∀ buf, appendEncodedJSONFromFloat buf (.inf false) = buf ++ ascii ("1e999")) ∧
    (∀ buf, appendEncodedJSONFromFloat buf (.inf true) = buf ++ ascii ("-1e999")) ∧
    (∀ buf neg m e2, eqFloor (.finite neg m e2) = true →
      appendEncodedJSONFromFloat buf (.finite neg m e2)
        = buf ++ formatFloatE (.finite neg m e2)) ∧
    (∀ buf neg m e2, eqFloor (.finite neg m e2) = false →
      appendEncodedJSONFromFloat buf (.finite neg m e2)
        = buf ++ formatFloatG (.finite neg m e2)) ∧
    (∀ m e2 D k, shortestDec m e2 = some (D, k) →
      parseDecFloat false D k = GoFloat64.finite false m e2 ∧
      ∃ j, 1 ≤ j ∧ tryND m e2 (findE10 m e2) j = some (D, k) ∧
        10 ^ (j - 1) ≤ D ∧ D < 10 ^ j ∧
        ∀ i, 1 ≤ i → i < j → tryND m e2 (findE10 m e2) i = none) ∧
    (appendEncodedJSONFromFloat [] (parseDecFloat false 3 0) = ascii ("3e+00")) ∧
    (appendEncodedJSONFromFloat [] (parseDecFloat false 314 (-2)) = ascii ("3.14")) := by
  refine ⟨fun buf => rfl, fun buf => rfl, fun buf => rfl, ?_, ?_, ?_, by decide, by decide⟩
  · intro buf neg m e2 h
    simp [appendEncodedJSONFromFloat, mathIsNaN, mathIsInf, h]
  · intro buf neg m e2 h
    simp [appendEncodedJSONFromFloat, mathIsNaN, mathIsInf, h]
  · intro m e2 D k h
    exact searchND_sound m e2 (findE10 m e2) 17 1 D k h

/-- Witness for C7: the binary64 nearest 3.14 renders via a shortest decimal
whose digits round-trip, and 3.0 (integral) renders as `3e+00`. -/
theorem float_encoder_spec_witness :
    parseDecFloat false 314 (-2) = GoFloat64.finite false 7070651414971679 (-51) ∧
    appendEncodedJSONFromFloat [] (parseDecFloat false 3 0) = ascii ("3e+00") := by
  obtain ⟨h1, h2, h3, h4, h5, h6, h7, h8⟩ := float_encoder_spec
  exact ⟨(h6 7070651414971679 (-51) 314 (-2) (by decide)).1, h7⟩

/-!  Aliasing model for branch-buffer derivation (claim C8).

Go slices share underlying arrays; `append` mutates the shared array in
place when capacity allows.  To state that deriving a child Logger copies
the branch bytes (rather than aliasing the parent's array), slices here are
(array id, length, capacity) against an explicit array store, and `append`
follows Go's semantics: write in place within capacity, else allocate a
fresh array.  Every array is materialized at its capacity (padded with 0). -/

namespace Heap

/-- A Go byte slice: the identity of its underlying array (none = nil
slice), its length and its capacity. -/
structure GoSlice where
  aid : Option Nat
  len : Nat
  cap : Nat
  deriving Repr, DecidableEq

/-- The array store: arrays by id. -/
abbrev Store := List (List Nat)

/-- The bytes a slice denotes. -/
def readSlice (st : Store) (s : GoSlice) : List Nat :=
  match s.aid with
  | none => []
  | some a => (st.getD a []).take s.len

/-- `make` + `copy`: allocate a fresh array of the given capacity holding
`content`. -/
def allocSlice (st : Store) (content : List Nat) (c : Nat) : Store × GoSlice :=
  (st ++ [content ++ List.replicate (c - content.length) 0],
    ⟨some st.length, content.length, c⟩)

/-- Go `append`: in place when the capacity suffices (mutating the shared
array), else into a freshly allocated array of twice the needed size. -/
def heapAppend (st : Store) (s : GoSlice) (bs : List Nat) : Store × GoSlice :=
  match s.aid with
  | some a =>
    if s.len + bs.length ≤ s.cap then
      (st.set a ((st.getD a []).take s.len ++ bs ++ (st.getD a []).drop (s.len + bs.length)),
        ⟨some a, s.len + bs.length, s.cap⟩)
    else allocSlice st (readSlice st s ++ bs) (2 * (s.len + bs.length))
  | none => allocSlice st (readSlice st s ++ bs) (2 * (s.len + bs.length))

/-- A slice is valid against a store when its array exists at exactly its
capacity and its length fits; the nil slice is empty. -/
def validSlice (st : Store) (s : GoSlice) : Prop :=
  (∀ a, s.aid = some a → a < st.length ∧ (st.getD a []).length = s.cap ∧ s.len ≤ s.cap) ∧
  (s.aid = none → s.len = 0 ∧ s.cap = 0)

/-- `Logger` over the slice store (src/logger.go lines 252-261): scratch and
branch are slices; the sink is a shared reference (its id). -/
structure Logger where
  scratch : GoSlice
  timeFormatter : Option Gologs.TimeFormatter
  outputId : Nat
  branch : GoSlice
  level : Nat
  tracing : Gologs.GoBool

/-- `Intermediate` (src/intermediate.go lines 8-14). -/
structure Intermediate where
  branch : GoSlice
  timeFormatter : Option Gologs.TimeFormatter
  outputId : Nat
  level : Nat
  tracing : Gologs.GoBool

/-- `Logger.With` (src/logger.go lines 443-462): builds an Intermediate
holding the parent's time formatter, sink reference and level — the tracing
field is not assigned (Go zero value false) — and, when the parent's branch
has capacity, a fresh copy of the parent's branch bytes. -/
def Logger.With (st : Store) (log : Logger) : Store × Intermediate :=
  if 0 < log.branch.cap then
    if 0 < log.branch.len then
      (let p := allocSlice st (readSlice st log.branch) log.branch.cap
       (p.1, ⟨p.2, log.timeFormatter, log.outputId, log.level, false⟩))
    else
      (let p := allocSlice st [] log.branch.cap
       (p.1, ⟨p.2, log.timeFormatter, log.outputId, log.level, false⟩))
  else (st, ⟨⟨none, 0, 0⟩, log.timeFormatter, log.outputId, log.level, false⟩)

/-- One chained Intermediate call (src/intermediate.go): a property method
or `Tracing`. -/
inductive ILOp
  | boolOp (name : Gologs.GoStr) (value : Gologs.GoBool)
  | floatOp (name : Gologs.GoStr) (value : Gologs.GoFloat64)
  | formatOp (name f sprintfResult : Gologs.GoStr)
  | intOp (name : Gologs.GoStr) (value : Gologs.GoInt)
  | int64Op (name : Gologs.GoStr) (value : Gologs.GoInt)
  | strOp (name value : Gologs.GoStr)
  | uintOp (name : Gologs.GoStr) (value : Nat)
  | uint64Op (name : Gologs.GoStr) (value : Nat)
  | tracingOp (value : Gologs.GoBool)

/-- The bytes one property call appends to the branch (empty for
`Tracing`). -/
def opBytes : ILOp → List Nat
  | .boolOp n v => Gologs.appendBool [] n v
  | .floatOp n v => Gologs.appendFloat [] n v
  | .formatOp n f r => Gologs.appendFormat [] n r
  | .intOp n v => Gologs.appendInt [] n v
  | .int64Op n v => Gologs.appendInt [] n v
  | .strOp n v => Gologs.appendString [] n v
  | .uintOp n v => Gologs.appendUint [] n v
  | .uint64Op n v => Gologs.appendUint [] n v
  | .tracingOp _ => []

/-- One Intermediate method call: appends the encoded property to the
Intermediate's own branch slice (or flips the tracing flag). -/
def Intermediate.applyOp (st : Store) (il : Intermediate) : ILOp → Store × Intermediate
  | .tracingOp v => (st, { il with tracing := v })
  | op =>
    (let p := heapAppend st il.branch (opBytes op)
     (p.1, { il with branch := p.2 }))

def Intermediate.applyOps (st : Store) (il : Intermediate) : List ILOp → Store × Intermediate
  | [] => (st, il)
  | op :: ops =>
    (let p := Intermediate.applyOp st il op
     Intermediate.applyOps p.1 p.2 ops)

/-- `Intermediate.Logger` (src/intermediate.go lines 57-74): a new Logger
with a fresh one-byte `{` scratch (capacity 2048), the Intermediate's
formatter, sink reference, level and tracing flag, and — when the
accumulated branch has capacity — another fresh copy of the branch bytes. -/
def Intermediate.Logger (st : Store) (il : Intermediate) : Store × Logger :=
  (let ps := allocSlice st [123] 2048
   if 0 < il.branch.cap then
     (let pb := allocSlice ps.1 (readSlice ps.1 il.branch) il.branch.cap
      (pb.1, ⟨ps.2, il.timeFormatter, il.outputId, pb.2, il.level, il.tracing⟩))
   else (ps.1, ⟨ps.2, il.timeFormatter, il.outputId, ⟨none, 0, 0⟩, il.level, il.tracing⟩))

/-- The admission gate of the heap Logger (same as the core model's). -/
def Logger.admitsL (log : Logger) (l : Gologs.Level) : Gologs.GoBool :=
  log.tracing || decide (log.level ≤ l.toNat)



lemma getD_append_self (st : Store) (x : List Nat) :
    (st ++ [x]).getD st.length [] = x := by
  rw [List.getD_eq_getElem?_getD, List.getElem?_append_right (le_refl _)]
  simp

lemma getD_append_lt (st : Store) (x : List Nat) (b : Nat) (hb : b < st.length) :
    (st ++ [x]).getD b [] = st.getD b [] := by
  rw [List.getD_eq_getElem?_getD, List.getD_eq_getElem?_getD, List.getElem?_append_left hb]

lemma getD_set_ne (st : Store) (a b : Nat) (x : List Nat) (h : b ≠ a) :
    (st.set a x).getD b [] = st.getD b [] := by
  rw [List.getD_eq_getElem?_getD, List.getD_eq_getElem?_getD,
    List.getElem?_set_ne (fun he => h he.symm)]

lemma getD_set_self (st : Store) (a : Nat) (x : List Nat) (ha : a < st.length) :
    (st.set a x).getD a [] = x := by
  rw [List.getD_eq_getElem?_getD, List.getElem?_set_self ha]
  rfl

lemma alloc_spec (st : Store) (content : List Nat) (c : Nat) (hc : content.length ≤ c) :
    validSlice (allocSlice st content c).1 (allocSlice st content c).2 ∧
    readSlice (allocSlice st content c).1 (allocSlice st content c).2 = content ∧
    (allocSlice st content c).1.length = st.length + 1 ∧
    (∀ b, b < st.length → (allocSlice st content c).1.getD b [] = st.getD b []) ∧
    (allocSlice st content c).2.aid = some st.length := by
  unfold allocSlice
  refine ⟨⟨?_, ?_⟩, ?_, by simp, ?_, rfl⟩
  · intro a2 ha2
    simp at ha2
    subst ha2
    refine ⟨by simp, ?_, hc⟩
    rw [getD_append_self]
    simp
    omega
  · intro hn
    simp at hn
  · show ((st ++ [_]).getD st.length []).take _ = _
    rw [getD_append_self]
    rw [List.take_append_of_le_length (le_refl _)]
    simp
  · intro b hb
    exact getD_append_lt st _ b hb

lemma heapAppend_spec (st : Store) (s : GoSlice) (bs : List Nat) (hv : validSlice st s) :
    validSlice (heapAppend st s bs).1 (heapAppend st s bs).2 ∧
    readSlice (heapAppend st s bs).1 (heapAppend st s bs).2 = readSlice st s ++ bs ∧
    st.length ≤ (heapAppend st s bs).1.length ∧
    (∀ b, b < st.length → (∀ a, s.aid = some a → b ≠ a) →
      (heapAppend st s bs).1.getD b [] = st.getD b []) ∧
    (∀ a2, (heapAppend st s bs).2.aid = some a2 → s.aid = some a2 ∨ st.length ≤ a2) := by
  obtain ⟨hsome, hnone⟩ := hv
  rcases haid : s.aid with _ | a
  · obtain ⟨hl0, hc0⟩ := hnone haid
    have hclen : (readSlice st s ++ bs).length ≤ 2 * (s.len + bs.length) := by
      unfold readSlice
      rw [haid]
      simp
      omega
    obtain ⟨h1, h2, h3, h4, h5⟩ := alloc_spec st (readSlice st s ++ bs) _ hclen
    simp only [heapAppend, haid]
    exact ⟨h1, by rw [h2], by omega, fun b hb _ => h4 b hb, fun a2 ha2 => by
      rw [h5] at ha2
      simp at ha2
      omega⟩
  · obtain ⟨halt, hacap, hlencap⟩ := hsome a haid
    have hacap2 : (st[a]?.getD []).length = s.cap := by
      rw [← List.getD_eq_getElem?_getD]
      exact hacap
    by_cases hfit : s.len + bs.length ≤ s.cap
    · have hA : (List.take s.len (st.getD a []) ++ bs).length = s.len + bs.length := by
        simp [List.length_take]
        omega
      have harr2len : (List.take s.len (st.getD a []) ++ bs ++
          List.drop (s.len + bs.length) (st.getD a [])).length = s.cap := by
        simp [List.length_take, List.length_drop]
        omega
      simp only [heapAppend, haid, if_pos hfit]
      refine ⟨⟨?_, ?_⟩, ?_, by simp, ?_, ?_⟩
      · intro a2 ha2
        simp at ha2
        subst ha2
        refine ⟨by simp [halt], ?_, hfit⟩
        rw [getD_set_self st a _ halt]
        exact harr2len
      · intro hn
        simp at hn
      · show ((List.set st a _).getD a []).take _ = _
        rw [getD_set_self st a _ halt]
        rw [List.take_left' hA]
        unfold readSlice
        rw [haid]
      · intro b hb hne
        exact getD_set_ne st a b _ (hne a rfl)
      · intro a2 ha2
        simp at ha2
        subst ha2
        exact Or.inl rfl
    · have hclen : (readSlice st s ++ bs).length ≤ 2 * (s.len + bs.length) := by
        unfold readSlice
        rw [haid]
        simp [List.length_take]
        omega
      obtain ⟨h1, h2, h3, h4, h5⟩ := alloc_spec st (readSlice st s ++ bs) _ hclen
      simp only [heapAppend, haid, if_neg hfit]
      exact ⟨h1, by rw [h2], by omega, fun b hb _ => h4 b hb, fun a2 ha2 => by
        rw [h5] at ha2
        simp at ha2
        omega⟩

/-- How the chained `Tracing` calls evolve the Intermediate tracing flag. -/
def traceFold (t : Gologs.GoBool) (op : ILOp) : Gologs.GoBool :=
  match op with
  | .tracingOp v => v
  | _ => t

/-- The protected-parent property: running the chained calls keeps the
branch slice valid, only grows the store, appends exactly the encoded
property bytes to the Intermediate's own branch, leaves level/sink/formatter
unchanged with the tracing flag following the `Tracing` calls, and never
touches any store entry the branch does not own. -/
def ProtectConc (st : Store) (il : Intermediate) (ops : List ILOp) : Prop :=
  validSlice (Intermediate.applyOps st il ops).1 (Intermediate.applyOps st il ops).2.branch ∧
  st.length ≤ (Intermediate.applyOps st il ops).1.length ∧
  readSlice (Intermediate.applyOps st il ops).1 (Intermediate.applyOps st il ops).2.branch
    = readSlice st il.branch ++ ops.flatMap opBytes ∧
  (Intermediate.applyOps st il ops).2.level = il.level ∧
  (Intermediate.applyOps st il ops).2.outputId = il.outputId ∧
  (Intermediate.applyOps st il ops).2.timeFormatter = il.timeFormatter ∧
  (Intermediate.applyOps st il ops).2.tracing = ops.foldl traceFold il.tracing ∧
  (∀ b, b < st.length → (∀ a, il.branch.aid = some a → b ≠ a) →
    (Intermediate.applyOps st il ops).1.getD b [] = st.getD b [] ∧
    (∀ a, (Intermediate.applyOps st il ops).2.branch.aid = some a → b ≠ a))

lemma protect_step (op : ILOp) (ops : List ILOp) (st : Store) (il : Intermediate)
    (hv : validSlice st il.branch)
    (happly : Intermediate.applyOp st il op =
      ((heapAppend st il.branch (opBytes op)).1,
        { il with branch := (heapAppend st il.branch (opBytes op)).2 }))
    (hfold : traceFold il.tracing op = il.tracing)
    (ih : ∀ st2 il2, validSlice st2 il2.branch → ProtectConc st2 il2 ops) :
    ProtectConc st il (op :: ops) := by
  obtain ⟨k1, k2, k3, k4, k5⟩ := heapAppend_spec st il.branch (opBytes op) hv
  have hstep : Intermediate.applyOps st il (op :: ops) =
      Intermediate.applyOps (heapAppend st il.branch (opBytes op)).1
        { il with branch := (heapAppend st il.branch (opBytes op)).2 } ops := by
    show (let p := Intermediate.applyOp st il op
          Intermediate.applyOps p.1 p.2 ops) = _
    rw [happly]
  obtain ⟨c1, c2, c3, c4, c5, c6, c7, c8⟩ :=
    ih (heapAppend st il.branch (opBytes op)).1
      { il with branch := (heapAppend st il.branch (opBytes op)).2 } k1
  unfold ProtectConc
  rw [hstep]
  refine ⟨c1, by omega, ?_, c4, c5, c6, ?_, ?_⟩
  · rw [c3, k2]
    simp
  · rw [c7]
    show _ = List.foldl traceFold (traceFold il.tracing op) ops
    rw [hfold]
  · intro b hb hne
    have hne2 : ∀ a, (heapAppend st il.branch (opBytes op)).2.aid = some a → b ≠ a := by
      intro a ha
      rcases k5 a ha with hold | hnew
      · exact hne a hold
      · omega
    obtain ⟨d1, d2⟩ := c8 b (by omega) hne2
    exact ⟨by rw [d1]; exact k4 b hb hne, d2⟩

lemma applyOps_protect (ops : List ILOp) :
    ∀ (st : Store) (il : Intermediate), validSlice st il.branch →
      ProtectConc st il ops := by
  induction ops with
  | nil =>
    intro st il hv
    exact ⟨hv, le_refl _, by simp [Intermediate.applyOps], rfl, rfl, rfl, rfl,
      fun b hb hne => ⟨rfl, hne⟩⟩
  | cons op ops ih =>
    intro st il hv
    cases op
    case tracingOp v =>
      have hstep : Intermediate.applyOps st il (.tracingOp v :: ops) =
          Intermediate.applyOps st { il with tracing := v } ops := rfl
      obtain ⟨c1, c2, c3, c4, c5, c6, c7, c8⟩ := ih st { il with tracing := v } hv
      unfold ProtectConc
      rw [hstep]
      exact ⟨c1, c2, by simpa [opBytes] using c3, c4, c5, c6, c7, c8⟩
    case boolOp n v => exact protect_step _ ops st il hv rfl rfl (fun a c => ih a c)
    case floatOp n v => exact protect_step _ ops st il hv rfl rfl (fun a c => ih a c)
    case formatOp n f r => exact protect_step _ ops st il hv rfl rfl (fun a c => ih a c)
    case intOp n v => exact protect_step _ ops st il hv rfl rfl (fun a c => ih a c)
    case int64Op n v => exact protect_step _ ops st il hv rfl rfl (fun a c => ih a c)
    case strOp n v => exact protect_step _ ops st il hv rfl rfl (fun a c => ih a c)
    case uintOp n v => exact protect_step _ ops st il hv rfl rfl (fun a c => ih a c)
    case uint64Op n v => exact protect_step _ ops st il hv rfl rfl (fun a c => ih a c)

lemma readSlice_zero_cap (st : Store) (s : GoSlice) (hv : validSlice st s)
    (hc : s.cap = 0) : readSlice st s = [] := by
  obtain ⟨hsome, hnone⟩ := hv
  unfold readSlice
  rcases haid : s.aid with _ | a
  · rfl
  · obtain ⟨-, -, hlen⟩ := hsome a haid
    rw [show s.len = 0 by omega]
    simp

lemma readSlice_frame (st st2 : Store) (s : GoSlice)
    (h : ∀ a, s.aid = some a → st2.getD a [] = st.getD a []) :
    readSlice st2 s = readSlice st s := by
  unfold readSlice
  rcases haid : s.aid with _ | a
  · rfl
  · show (st2.getD a []).take s.len = (st.getD a []).take s.len
    rw [h a haid]

lemma with_spec (st : Store) (p : Logger) (hv : validSlice st p.branch) :
    validSlice (Logger.With st p).1 (Logger.With st p).2.branch ∧
    st.length ≤ (Logger.With st p).1.length ∧
    (∀ b, b < st.length → (Logger.With st p).1.getD b [] = st.getD b []) ∧
    readSlice (Logger.With st p).1 (Logger.With st p).2.branch = readSlice st p.branch ∧
    (Logger.With st p).2.level = p.level ∧
    (Logger.With st p).2.outputId = p.outputId ∧
    (Logger.With st p).2.timeFormatter = p.timeFormatter ∧
    (Logger.With st p).2.tracing = false ∧
    (∀ a, (Logger.With st p).2.branch.aid = some a → st.length ≤ a) := by
  obtain ⟨hsome, hnone⟩ := hv
  by_cases hcap : 0 < p.branch.cap
  · rcases haid : p.branch.aid with _ | a
    · obtain ⟨-, hc0⟩ := hnone haid
      omega
    · obtain ⟨halt, hacap, hlencap⟩ := hsome a haid
      by_cases hlen : 0 < p.branch.len
      · have hc : (readSlice st p.branch).length ≤ p.branch.cap := by
          unfold readSlice
          rw [haid]
          simp
          omega
        obtain ⟨h1, h2, h3, h4, h5⟩ := alloc_spec st (readSlice st p.branch) p.branch.cap hc
        have hW : Logger.With st p
            = ((allocSlice st (readSlice st p.branch) p.branch.cap).1,
               ⟨(allocSlice st (readSlice st p.branch) p.branch.cap).2,
                p.timeFormatter, p.outputId, p.level, false⟩) := by
          simp only [Logger.With, if_pos hcap, if_pos hlen]
        rw [hW]
        refine ⟨h1, ?_, h4, h2, rfl, rfl, rfl, rfl,
          fun a2 ha2 => by rw [h5] at ha2; exact le_of_eq (Option.some.inj ha2)⟩
        show st.length ≤ (allocSlice st (readSlice st p.branch) p.branch.cap).1.length
        omega
      · have hc : ([] : List Nat).length ≤ p.branch.cap := by simp
        obtain ⟨h1, h2, h3, h4, h5⟩ := alloc_spec st [] p.branch.cap hc
        have hrd : readSlice st p.branch = [] := by
          unfold readSlice
          rw [haid, show p.branch.len = 0 by omega]
          simp
        have hW : Logger.With st p
            = ((allocSlice st [] p.branch.cap).1,
               ⟨(allocSlice st [] p.branch.cap).2,
                p.timeFormatter, p.outputId, p.level, false⟩) := by
          simp only [Logger.With, if_pos hcap, if_neg hlen]
        rw [hW]
        refine ⟨h1, ?_, h4, by rw [h2, hrd], rfl, rfl, rfl, rfl,
          fun a2 ha2 => by rw [h5] at ha2; exact le_of_eq (Option.some.inj ha2)⟩
        show st.length ≤ (allocSlice st [] p.branch.cap).1.length
        omega
  · have hrd : readSlice st p.branch = [] :=
      readSlice_zero_cap st p.branch ⟨hsome, hnone⟩ (by omega)
    have hW : Logger.With st p
        = (st, ⟨⟨none, 0, 0⟩, p.timeFormatter, p.outputId, p.level, false⟩) := by
      simp only [Logger.With, if_neg hcap]
    rw [hW]
    refine ⟨⟨?_, ?_⟩, le_refl _, fun b hb => rfl, ?_, rfl, rfl, rfl, rfl, ?_⟩
    · intro a ha
      exact Option.noConfusion ha
    · intro h
      exact ⟨rfl, rfl⟩
    · rw [hrd]
      rfl
    · intro a ha
      exact Option.noConfusion ha

lemma build_spec (st : Store) (il : Intermediate) (hv : validSlice st il.branch) :
    validSlice (Intermediate.Logger st il).1 (Intermediate.Logger st il).2.branch ∧
    st.length ≤ (Intermediate.Logger st il).1.length ∧
    (∀ b, b < st.length → (Intermediate.Logger st il).1.getD b [] = st.getD b []) ∧
    readSlice (Intermediate.Logger st il).1 (Intermediate.Logger st il).2.branch
      = readSlice st il.branch ∧
    readSlice (Intermediate.Logger st il).1 (Intermediate.Logger st il).2.scratch = [123] ∧
    (Intermediate.Logger st il).2.level = il.level ∧
    (Intermediate.Logger st il).2.outputId = il.outputId ∧
    (Intermediate.Logger st il).2.timeFormatter = il.timeFormatter ∧
    (Intermediate.Logger st il).2.tracing = il.tracing := by
  obtain ⟨hsome, hnone⟩ := hv
  have hc1 : ([123] : List Nat).length ≤ 2048 := by simp
  obtain ⟨s1, s2, s3, s4, s5⟩ := alloc_spec st [123] 2048 hc1
  by_cases hcap : 0 < il.branch.cap
  · rcases haid : il.branch.aid with _ | a
    · obtain ⟨-, hc0⟩ := hnone haid
      omega
    · obtain ⟨halt, hacap, hlencap⟩ := hsome a haid
      have hrdeq : readSlice (allocSlice st [123] 2048).1 il.branch
          = readSlice st il.branch := by
        apply readSlice_frame
        intro a2 ha2
        rw [haid] at ha2
        rw [← Option.some.inj ha2]
        exact s4 a halt
      have hc2 : (readSlice (allocSlice st [123] 2048).1 il.branch).length
          ≤ il.branch.cap := by
        rw [hrdeq]
        unfold readSlice
        rw [haid]
        simp
        omega
      obtain ⟨b1, b2, b3, b4, b5⟩ := alloc_spec (allocSlice st [123] 2048).1
        (readSlice (allocSlice st [123] 2048).1 il.branch) il.branch.cap hc2
      have hW : Intermediate.Logger st il
          = ((allocSlice (allocSlice st [123] 2048).1
                (readSlice (allocSlice st [123] 2048).1 il.branch) il.branch.cap).1,
             ⟨(allocSlice st [123] 2048).2, il.timeFormatter, il.outputId,
              (allocSlice (allocSlice st [123] 2048).1
                (readSlice (allocSlice st [123] 2048).1 il.branch) il.branch.cap).2,
              il.level, il.tracing⟩) := by
        simp only [Intermediate.Logger, if_pos hcap]
      rw [hW]
      refine ⟨b1, ?_, ?_, b2.trans hrdeq, ?_, rfl, rfl, rfl, rfl⟩
      · show st.length ≤ (allocSlice (allocSlice st [123] 2048).1
          (readSlice (allocSlice st [123] 2048).1 il.branch) il.branch.cap).1.length
        omega
      · intro b hb
        show (allocSlice (allocSlice st [123] 2048).1
          (readSlice (allocSlice st [123] 2048).1 il.branch) il.branch.cap).1.getD b []
            = st.getD b []
        rw [b4 b (by omega), s4 b hb]
      · refine (readSlice_frame _ _ _ ?_).trans s2
        intro a2 ha2
        rw [s5] at ha2
        rw [← Option.some.inj ha2]
        exact b4 st.length (by omega)
  · have hrd : readSlice st il.branch = [] :=
      readSlice_zero_cap st il.branch ⟨hsome, hnone⟩ (by omega)
    have hW : Intermediate.Logger st il
        = ((allocSlice st [123] 2048).1,
           ⟨(allocSlice st [123] 2048).2, il.timeFormatter, il.outputId,
            ⟨none, 0, 0⟩, il.level, il.tracing⟩) := by
      simp only [Intermediate.Logger, if_neg hcap]
    rw [hW]
    refine ⟨⟨?_, ?_⟩, ?_, s4, ?_, s2, rfl, rfl, rfl, rfl⟩
    · intro a ha
      exact Option.noConfusion ha
    · intro h
      exact ⟨rfl, rfl⟩
    · show st.length ≤ (allocSlice st [123] 2048).1.length
      omega
    · rw [hrd]
      rfl

/-- Concrete store for the C8 witness: one array holding branch bytes
`k,` at capacity 4. -/
def cStC8 : Store := [[107, 44, 0, 0]]

def cParentC8 : Logger := ⟨⟨none, 0, 0⟩, none, 7, ⟨some 0, 2, 4⟩, 2, false⟩

def cOpsC8 : List ILOp := [ILOp.strOp ("k".toList) ("v".toList), ILOp.tracingOp true]

def cWC8 : Store × Intermediate := Logger.With cStC8 cParentC8

def cApC8 : Store × Intermediate := Intermediate.applyOps cWC8.1 cWC8.2 cOpsC8

def cBlC8 : Store × Logger := Intermediate.Logger cApC8.1 cApC8.2

/-- C8 (amended): deriving a child Logger by `With()` followed by chained
property calls and `Logger()` snapshots the parent's branch bytes, level,
sink reference and time formatter at derivation time: the child ends with its
own fresh one-byte `{` scratch and its own copy of the parent's branch bytes
followed by the encoded chained properties, the parent's branch bytes are
untouched in the final store, and the child's admission gate is determined by
the parent's level at derivation time together with the chained `Tracing`
calls alone — the parent's tracing flag is not inherited (`With` leaves the
Intermediate's tracing flag at its zero value). -/
theorem with_logger_derivation_snapshot (st : Store) (p : Logger) (ops : List ILOp)
    (hv : validSlice st p.branch)
    (w : Store × Intermediate) (hw : w = Logger.With st p)
    (ap : Store × Intermediate) (hap : ap = Intermediate.applyOps w.1 w.2 ops)
    (bl : Store × Logger) (hbl : bl = Intermediate.Logger ap.1 ap.2) :
    bl.2.level = p.level ∧
    bl.2.outputId = p.outputId ∧
    bl.2.timeFormatter = p.timeFormatter ∧
    readSlice bl.1 bl.2.branch = readSlice st p.branch ++ ops.flatMap opBytes ∧
    readSlice bl.1 bl.2.scratch = [123] ∧
    readSlice bl.1 p.branch = readSlice st p.branch ∧
    bl.2.tracing = List.foldl traceFold false ops ∧
    (∀ L, bl.2.admitsL L
      = (List.foldl traceFold false ops || decide (p.level ≤ L.toNat))) := by
  subst hw hap hbl
  obtain ⟨w1, w2, w3, w4, w5, w6, w7, w8, w9⟩ := with_spec st p hv
  have hpc := applyOps_protect ops (Logger.With st p).1 (Logger.With st p).2 w1
  unfold ProtectConc at hpc
  obtain ⟨a1, a2, a3, a4, a5, a6, a7, a8⟩ := hpc
  obtain ⟨g1, g2, g3, g4, g5, g6, g7, g8, g9⟩ := build_spec
    (Intermediate.applyOps (Logger.With st p).1 (Logger.With st p).2 ops).1
    (Intermediate.applyOps (Logger.With st p).1 (Logger.With st p).2 ops).2 a1
  refine ⟨?_, ?_, ?_, ?_, g5, ?_, ?_, ?_⟩
  · rw [g6, a4, w5]
  · rw [g7, a5, w6]
  · rw [g8, a6, w7]
  · rw [g4, a3, w4]
  · rcases hpaid : p.branch.aid with _ | b
    · unfold readSlice
      rw [hpaid]
    · have hblt : b < st.length := (hv.1 b hpaid).1
      have hne : ∀ a, (Logger.With st p).2.branch.aid = some a → b ≠ a := by
        intro a ha
        have := w9 a ha
        omega
      obtain ⟨d1, d2⟩ := a8 b (by omega) hne
      apply readSlice_frame
      intro a ha
      rw [hpaid] at ha
      rw [← Option.some.inj ha]
      rw [g3 b (by omega), d1, w3 b hblt]
  · rw [g9, a7, w8]
  · intro L
    unfold Logger.admitsL
    rw [g9, a7, w8, g6, a4, w5]

theorem with_logger_derivation_snapshot_witness :
    validSlice cStC8 cParentC8.branch ∧
    (cBlC8.2.level = cParentC8.level ∧
     cBlC8.2.outputId = cParentC8.outputId ∧
     cBlC8.2.timeFormatter = cParentC8.timeFormatter ∧
     readSlice cBlC8.1 cBlC8.2.branch
       = readSlice cStC8 cParentC8.branch ++ cOpsC8.flatMap opBytes ∧
     readSlice cBlC8.1 cBlC8.2.scratch = [123] ∧
     readSlice cBlC8.1 cParentC8.branch = readSlice cStC8 cParentC8.branch ∧
     cBlC8.2.tracing = List.foldl traceFold false cOpsC8 ∧
     (∀ L, cBlC8.2.admitsL L
       = (List.foldl traceFold false cOpsC8
          || decide (cParentC8.level ≤ L.toNat)))) := by
  have hvc : validSlice cStC8 cParentC8.branch := by
    refine ⟨?_, ?_⟩
    · intro a ha
      rw [← Option.some.inj ha]
      exact ⟨by decide, by decide, by decide⟩
    · intro h
      exact Option.noConfusion h
  exact ⟨hvc, with_logger_derivation_snapshot cStC8 cParentC8 cOpsC8 hvc
    cWC8 rfl cApC8 rfl cBlC8 rfl⟩

/-- C8, counterexample to the spec's claim that the parent's tracing flag is
snapshotted: a tracing parent at level Error derives — through `With` and
`Logger` with no chained calls — a child whose tracing flag is false and
which no longer admits Debug events, though the parent did. -/
theorem with_tracing_not_snapshotted :
    (⟨⟨none, 0, 0⟩, none, 0, ⟨none, 0, 0⟩, 4, true⟩ : Logger).tracing = true ∧
    Logger.admitsL (⟨⟨none, 0, 0⟩, none, 0, ⟨none, 0, 0⟩, 4, true⟩ : Logger)
      Gologs.Level.debug = true ∧
    (Intermediate.Logger
      (Logger.With [] ⟨⟨none, 0, 0⟩, none, 0, ⟨none, 0, 0⟩, 4, true⟩).1
      (Logger.With [] ⟨⟨none, 0, 0⟩, none, 0, ⟨none, 0, 0⟩, 4, true⟩).2).2.tracing
      = false ∧
    Logger.admitsL (Intermediate.Logger
      (Logger.With [] ⟨⟨none, 0, 0⟩, none, 0, ⟨none, 0, 0⟩, 4, true⟩).1
      (Logger.With [] ⟨⟨none, 0, 0⟩, none, 0, ⟨none, 0, 0⟩, 4, true⟩).2).2
      Gologs.Level.debug = false :=
  ⟨rfl, rfl, rfl, rfl⟩

end Heap

namespace WriterA

/-- Version-A `Event` (src/event.go lines 14-22): this earlier design keeps
the branch bytes, the level threshold and the tracer flag on the Event
itself. The time formatter is taken to be nil, its default — the
faulting-formatter path is claim C4's territory — and the mutex is elided:
`Write` is a single lock/unlock cycle whose returned pair does not depend on
it. -/
structure EventA where
  branch : Option (List Nat)
  scratch : List Nat
  output : Sink
  level : Nat
  isTracer : Nat

/-- The severity label bytes each version-A accessor appends (src/event.go
lines 202, 218, 234, 250, 261). -/
def labelA : Level → List Nat
  | .debug => ascii ("\"level\":\"debug\",")
  | .verbose => ascii ("\"level\":\"verbose\",")
  | .info => ascii ("\"level\":\"info\",")
  | .warning => ascii ("\"level\":\"warning\",")
  | .error => ascii ("\"level\":\"error\",")

/-- The branch bytes appended when the branch is non-nil (src/event.go lines
203-205). -/
def branchBytesA (e : EventA) : List Nat :=
  match e.branch with
  | some b => b
  | none => []

/-- Common body of the version-A severity accessors (src/event.go lines
192-266): when gated — stored level strictly above the accessor's severity
and not a tracer — return nil; else append the severity label and the
non-nil branch bytes to the scratch. `gate = none` is `error()`, which never
gates. -/
def EventA.openA (e : EventA) (gate : Option Nat) (label : List Nat) :
    Option EventA :=
  match gate with
  | some g =>
    if g < e.level ∧ e.isTracer = 0 then none
    else some { e with scratch := (e.scratch ++ label) ++ branchBytesA e }
  | none => some { e with scratch := (e.scratch ++ label) ++ branchBytesA e }

/-- `Event.debug` (src/event.go lines 192-206). -/
def EventA.debugA (e : EventA) : Option EventA :=
  e.openA (some 0) (labelA .debug)

/-- `Event.verbose` (src/event.go lines 208-222). -/
def EventA.verboseA (e : EventA) : Option EventA :=
  e.openA (some 1) (labelA .verbose)

/-- `Event.info` (src/event.go lines 224-238). -/
def EventA.infoA (e : EventA) : Option EventA :=
  e.openA (some 2) (labelA .info)

/-- `Event.warning` (src/event.go lines 240-254). -/
def EventA.warningA (e : EventA) : Option EventA :=
  e.openA (some 3) (labelA .warning)

/-- `Event.error` (src/event.go lines 256-266): ungated. -/
def EventA.errorA (e : EventA) : Option EventA :=
  e.openA none (labelA .error)

/-- The finished record bytes of version-A `Msg` (src/event.go lines
146-156): append the message property, closing brace and newline — or, for
the empty message, overwrite the final byte with the closing brace before
the newline. -/
def msgBytesA (scratch : List Nat) (s : GoStr) : List Nat :=
  if s ≠ [] then
    scratch ++ ascii ("\"message\":") ++ appendEncodedJSONFromString [] s ++ [125, 10]
  else scratch.dropLast ++ [125] ++ [10]

/-- Version-A `Event.Msg` (src/event.go lines 133-161): the nil receiver is
a no-op returning nil; an open event hands the finished bytes to the sink
once and returns the sink's error (the deferred scratch reset does not
affect the returned value; a sink panic propagates past the deferred
cleanup). -/
def msgA : Option EventA → GoStr → List (List Nat) × Except GoErr (Option GoErr)
  | none, _ => ([], .ok none)
  | some e, s =>
    match e.output (msgBytesA e.scratch s) with
    | .ok _ => ([msgBytesA e.scratch s], .ok none)
    | .fail _ err => ([msgBytesA e.scratch s], .ok (some err))
    | .panic p => ([msgBytesA e.scratch s], .error p)

/-- Go's `string(buf)` as used at src/unnamed/part_007 line 38, for ASCII
byte slices. -/
def stringOfBytes (bs : List Nat) : GoStr := bs.map Char.ofNat

/-- `Writer` (src/unnamed/part_007 lines 7-9). -/
structure Writer where
  event : EventA

/-- The `switch Level(atomic.LoadUint32(&w.event.level))` dispatch of
`Write` (src/unnamed/part_007 lines 23-34): each valid level value invokes
the accessor of that same severity; an out-of-range value leaves the event
nil. -/
def dispatchA (e : EventA) : Option EventA :=
  if e.level = 0 then e.debugA
  else if e.level = 1 then e.verboseA
  else if e.level = 2 then e.infoA
  else if e.level = 3 then e.warningA
  else if e.level = 4 then e.errorA
  else none

/-- `Writer.Write` (src/unnamed/part_007 lines 21-43): dispatch on the
stored level, `(len(buf), nil)` for a nil event, else `Msg(string(buf))` —
`(0, err)` when Msg returns an error, `(len(buf), nil)` otherwise. The first
component collects the byte strings handed to the sink. -/
def Writer.WriteA (w : Writer) (buf : List Nat) :
    List (List Nat) × Except GoErr (GoInt × Option GoErr) :=
  match dispatchA w.event with
  | none => ([], .ok ((buf.length : GoInt), none))
  | some ev =>
    match msgA (some ev) (stringOfBytes buf) with
    | (ws, .error p) => (ws, .error p)
    | (ws, .ok none) => (ws, .ok ((buf.length : GoInt), none))
    | (ws, .ok (some err)) => (ws, .ok ((0 : GoInt), some err))

lemma dispatchA_eq (e : EventA) (L : Level) (hL : e.level = L.toNat) :
    dispatchA e
      = some { e with scratch := (e.scratch ++ labelA L) ++ branchBytesA e } := by
  cases L
  case debug =>
    simp only [Level.toNat] at hL
    have h0 : e.level = 0 := hL
    unfold dispatchA
    rw [if_pos h0]
    simp only [EventA.debugA, EventA.openA]
    have hg : ¬(0 < e.level ∧ e.isTracer = 0) := by omega
    rw [if_neg hg]
  case verbose =>
    simp only [Level.toNat] at hL
    have h0 : ¬ e.level = 0 := by omega
    have h1 : e.level = 1 := hL
    unfold dispatchA
    rw [if_neg h0, if_pos h1]
    simp only [EventA.verboseA, EventA.openA]
    have hg : ¬(1 < e.level ∧ e.isTracer = 0) := by omega
    rw [if_neg hg]
  case info =>
    simp only [Level.toNat] at hL
    have h0 : ¬ e.level = 0 := by omega
    have h1 : ¬ e.level = 1 := by omega
    have h2 : e.level = 2 := hL
    unfold dispatchA
    rw [if_neg h0, if_neg h1, if_pos h2]
    simp only [EventA.infoA, EventA.openA]
    have hg : ¬(2 < e.level ∧ e.isTracer = 0) := by omega
    rw [if_neg hg]
  case warning =>
    simp only [Level.toNat] at hL
    have h0 : ¬ e.level = 0 := by omega
    have h1 : ¬ e.level = 1 := by omega
    have h2 : ¬ e.level = 2 := by omega
    have h3 : e.level = 3 := hL
    unfold dispatchA
    rw [if_neg h0, if_neg h1, if_neg h2, if_pos h3]
    simp only [EventA.warningA, EventA.openA]
    have hg : ¬(3 < e.level ∧ e.isTracer = 0) := by omega
    rw [if_neg hg]
  case error =>
    simp only [Level.toNat] at hL
    have h0 : ¬ e.level = 0 := by omega
    have h1 : ¬ e.level = 1 := by omega
    have h2 : ¬ e.level = 2 := by omega
    have h3 : ¬ e.level = 3 := by omega
    have h4 : e.level = 4 := hL
    unfold dispatchA
    rw [if_neg h0, if_neg h1, if_neg h2, if_neg h3, if_pos h4]
    simp only [EventA.errorA, EventA.openA]

def cWrC5 : Writer := ⟨⟨none, [123], fun _ => .ok 5, 3, 0⟩⟩

def cRecC5 : List Nat :=
  msgBytesA ((cWrC5.event.scratch ++ labelA .warning) ++ branchBytesA cWrC5.event)
    (stringOfBytes [104])

/-- C5 (amended): for a Writer whose stored level value is a valid `Level`,
`Write(buf)` — the severity gate inside the dispatched accessor compares the
stored level against itself, so the event always opens — hands exactly one
record to the sink, built from the scratch prefix, the severity label of the
stored level, the branch bytes and the message `string(buf)`; it returns
`(len(buf), nil)` when the sink write succeeds but `(0, err)` — not
`(len(buf), err)` — when the sink returns an error, and a sink panic
propagates. -/
theorem writer_write_one_record_and_counts (w : Writer) (buf : List Nat)
    (L : Level) (hL : w.event.level = L.toNat)
    (rec : List Nat)
    (hrec : rec = msgBytesA ((w.event.scratch ++ labelA L) ++ branchBytesA w.event)
      (stringOfBytes buf)) :
    (Writer.WriteA w buf).1 = [rec] ∧
    (Writer.WriteA w buf).2
      = (match w.event.output rec with
         | .ok n => .ok ((buf.length : GoInt), none)
         | .fail n err => .ok ((0 : GoInt), some err)
         | .panic p => .error p) := by
  subst hrec
  have hd := dispatchA_eq w.event L hL
  unfold Writer.WriteA
  rw [hd]
  rcases hout : w.event.output
      (msgBytesA ((w.event.scratch ++ labelA L) ++ branchBytesA w.event)
        (stringOfBytes buf)) with n | ⟨n, err⟩ | pq
  · simp only [msgA, hout]
    exact ⟨by trivial, by trivial⟩
  · simp only [msgA, hout]
    exact ⟨by trivial, by trivial⟩
  · simp only [msgA, hout]
    exact ⟨by trivial, by trivial⟩

theorem writer_write_one_record_and_counts_witness :
    cWrC5.event.level = Level.warning.toNat ∧
    cRecC5 = msgBytesA ((cWrC5.event.scratch ++ labelA .warning)
      ++ branchBytesA cWrC5.event) (stringOfBytes [104]) ∧
    ((Writer.WriteA cWrC5 [104]).1 = [cRecC5] ∧
     (Writer.WriteA cWrC5 [104]).2
       = (match cWrC5.event.output cRecC5 with
          | .ok n => .ok ((([104] : List Nat).length : GoInt), none)
          | .fail n err => .ok ((0 : GoInt), some err)
          | .panic p => .error p)) :=
  ⟨rfl, rfl,
    writer_write_one_record_and_counts cWrC5 [104] .warning rfl cRecC5 rfl⟩

/-- C5, counterexample to the claimed error-path result `(len(buf), err)`:
a Writer at level Info over a failing sink, handed the two-byte buffer
`hi`, hands one record to the sink and returns the count 0 — not 2 — next
to the sink's error. -/
theorem writer_write_error_count_counterexample :
    (Writer.WriteA ⟨⟨none, [123], fun _ => .fail 0 ("boom".toList), 2, 0⟩⟩
        [104, 105]).2
      = .ok ((0 : GoInt), some ("boom".toList)) ∧
    ([104, 105] : List Nat).length = 2 ∧
    (Writer.WriteA ⟨⟨none, [123], fun _ => .fail 0 ("boom".toList), 2, 0⟩⟩
        [104, 105]).1.length = 1 :=
  ⟨rfl, rfl, rfl⟩

end WriterA

end Gologs
